import Mathlib

/-!
Verification of the evaluation dispatcher and buffer-management layer of the
compiled-function ("cfunc") evaluator exposed in `src/heyoka/cfunc.cpp`
(`expose_add_cfunc_impl`).  The C++ closure created there validates the
caller-supplied numpy buffers, decides between a zero-copy execution path and
a buffered (gather/scatter) execution path, loops over SIMD blocks plus a
scalar remainder, and returns the outputs array.

The embedding below is a shallow functional model of that closure:

* numpy arrays become `NpArr` records (shape, row-major data, writability,
  dtype tag, C-contiguity flag, and a byte-extent used for the aliasing
  oracle);
* the JIT-compiled kernels (external collaborators produced by the heyoka
  compiler backend) are parameters bundled in `CfKernels`;
* the `mppp::real` precision machinery is modelled by tagging every element
  value with a precision (`RealOps`), mirroring the `if constexpr
  (std::is_same_v<T, mppp::real>)` template dispatch;
* the single in-place mutation performed before kernel invocation
  (`pyreal_ensure_array` on the outputs array) is made observable through the
  `callerOutputs` field of the call outcome, which carries the final contents
  of the caller-supplied outputs array object;
* every kernel invocation is recorded in a trace (`KInv`), with the pointer
  offsets and strides actually passed to the strided kernels.
-/

/-- Kernel metadata, produced once at compile time in `expose_add_cfunc_impl`
(`nparams`/`is_time_dependent` from the expressions, `nouts = fn.size()`,
`nvars` from the variable list, `simd_size` the batch width, `dt` the numpy
dtype number of the element type `T`, `prec` the working precision used by
the `mppp::real` instantiation). -/
structure CfMeta where
  nvars : Nat
  nouts : Nat
  nparams : Nat
  is_time_dependent : Bool
  simd_size : Nat
  dt : Nat
  prec : Nat
deriving DecidableEq, Repr

/-- A normalized view of a numpy array as seen by the dispatcher: shape
(1-D or 2-D), row-major element data, writability flag, dtype number,
C-contiguity/alignment flag (the result of `is_npy_array_carray`, declared in
`common_utils.hpp`), and the byte extent of its memory region.  `region =
none` stands for a freshly allocated buffer that shares memory with no
caller-visible array. -/
structure NpArr (T : Type) where
  shape : List Nat
  data : List T
  writeable : Bool
  dt : Nat
  carray : Bool
  region : Option (Nat × Nat)
deriving DecidableEq, Repr

/-- `ndim()` of the array. -/
def NpArr.ndim {T : Type} (a : NpArr T) : Nat := a.shape.length

/-- `shape(0)` of the array. -/
def NpArr.shape0 {T : Type} (a : NpArr T) : Nat := a.shape.headD 0

/-- `shape(1)` of the array (only consulted on 2-D arrays). -/
def NpArr.shape1 {T : Type} (a : NpArr T) : Nat := a.shape.getD 1 0

/-- The `time` argument of the call: either a scalar of the element type or
an iterable (`std::variant<T, py::iterable>` in the source). -/
inductive TimeArg (T : Type) where
  | scalar (v : T)
  | iter (a : NpArr T)
deriving DecidableEq, Repr

/-- Modelled from the spec (§4.5 Precision Normalizer): the `mppp::real`
precision interface used by `pyreal_check_array` / `pyreal_ensure_array`
(declared in `expose_real.hpp`, not part of this source tree) and by
`mppp::real::set_prec`.  `slotPrec` reads the precision a value was
constructed at; `setPrec` reconstructs the value at a given precision.
For the non-`mppp::real` instantiations the dispatcher passes no `RealOps`
at all, mirroring the `if constexpr` template dispatch. -/
structure RealOps (T : Type) where
  slotPrec : T → Nat
  setPrec : Nat → T → T

/-- The user-facing validation errors raised by `py_throw` in the call
closure, one constructor per throw site, in source order. -/
inductive CfErr where
  | missingParams
  | missingTime
  | badInputsDim
  | badInputsSize
  | scalarTimeExpected
  | outputNotWritable
  | badOutputsDim
  | badOutputsSize
  | badOutputsBatch
  | precInputs
  | badParsDim
  | badParsSize
  | badParsBatch
  | precPars
  | badTimeDim
  | badTimeBatch
  | precTime
deriving DecidableEq, Repr

/-- One kernel invocation, as recorded by the dispatcher.  For the strided
variants used by the zero-copy batch path we record the element offsets the
four role pointers were advanced by (`none` encodes a null pointer) and the
stride.  `scalZ` is the direct (single-evaluation, zero-copy) scalar call,
whose input/parameter/time pointers are the caller buffers (`true`) or null
(`false`); `scalB`/`batchB` are invocations on the scratch buffers. -/
inductive KInv where
  | batchS (outOff : Nat) (inOff parOff timeOff : Option Nat) (stride : Nat)
  | scalS (outOff : Nat) (inOff parOff timeOff : Option Nat) (stride : Nat)
  | scalZ (inPtr parPtr timePtr : Bool)
  | scalB
  | batchB
deriving DecidableEq, Repr

/-- The four scratch buffers owned by one evaluator instance
(`buf_in`, `buf_out`, `buf_pars`, `buf_time` in the source). -/
structure CfBufs (T : Type) where
  buf_in : List T
  buf_out : List T
  buf_pars : List T
  buf_time : List T
deriving DecidableEq, Repr

/-- The scalar and batch kernel semantics, as compiled by the external
backend.  `fscal` reads `nvars` inputs, `nparams` parameters and a time
value and produces the `nouts` outputs; `fbatch` does the same for `W`
evaluation points at once.  The strided variants (`cfunc.strided`) compute
the same functions on a strided view; this is the Kernel Pair invariant of
the spec (§3): all entry points are produced from the same symbolic
function. -/
structure CfKernels (T : Type) (nvars nouts nparams W : Nat) where
  fscal : (Fin nvars → T) → (Fin nparams → T) → T → Fin nouts → T
  fbatch : (Fin nvars → Fin W → T) → (Fin nparams → Fin W → T) → (Fin W → T) → Fin nouts → Fin W → T

/-- Pointwise update of a list by an index-aware function, starting the index
count at `n`.  This is the model of the C++ `buf[i] = ...;` write loops. -/
def updFrom {T : Type} (f : Nat → T → T) : Nat → List T → List T
  | _, [] => []
  | n, x :: xs => f n x :: updFrom f (n + 1) xs

/-- Pointwise update of a list by an index-aware function. -/
def listUpd {T : Type} (f : Nat → T → T) (l : List T) : List T := updFrom f 0 l

theorem length_updFrom {T : Type} (f : Nat → T → T) (n : Nat) (l : List T) :
    (updFrom f n l).length = l.length := by
  induction l generalizing n with
  | nil => rfl
  | cons x xs ih => simp [updFrom, ih]

theorem length_listUpd {T : Type} (f : Nat → T → T) (l : List T) :
    (listUpd f l).length = l.length := length_updFrom f 0 l

theorem getD_updFrom {T : Type} (f : Nat → T → T) (n : Nat) (l : List T) (i : Nat) (d : T) :
    (updFrom f n l).getD i d = if i < l.length then f (n + i) (l.getD i d) else d := by
  induction l generalizing n i with
  | nil => simp [updFrom]
  | cons x xs ih =>
    cases i with
    | zero => simp [updFrom]
    | succ j =>
      simp only [updFrom, List.getD_cons_succ, List.length_cons, ih, Nat.succ_lt_succ_iff]
      rw [Nat.add_comm j 1, ← Nat.add_assoc]

theorem getD_listUpd {T : Type} (f : Nat → T → T) (l : List T) (i : Nat) (d : T) :
    (listUpd f l).getD i d = if i < l.length then f i (l.getD i d) else d := by
  simpa using getD_updFrom f 0 l i d

theorem all_updFrom {T : Type} (q : T → Bool) (f : Nat → T → T) (n : Nat) (l : List T)
    (hl : l.all q = true) (hf : ∀ i x, q x = true → q (f i x) = true) :
    (updFrom f n l).all q = true := by
  induction l generalizing n with
  | nil => rfl
  | cons x xs ih =>
    simp only [List.all_cons, Bool.and_eq_true] at hl
    simp only [updFrom, List.all_cons, Bool.and_eq_true]
    exact ⟨hf n x hl.1, ih (n + 1) hl.2⟩

theorem all_listUpd {T : Type} (q : T → Bool) (f : Nat → T → T) (l : List T)
    (hl : l.all q = true) (hf : ∀ i x, q x = true → q (f i x) = true) :
    (listUpd f l).all q = true := all_updFrom q f 0 l hl hf

theorem all_getD {T : Type} (q : T → Bool) (l : List T) (d : T)
    (hl : l.all q = true) (hd : q d = true) (n : Nat) : q (l.getD n d) = true := by
  induction l generalizing n with
  | nil => simpa [List.getD] using hd
  | cons x xs ih =>
    simp only [List.all_cons, Bool.and_eq_true] at hl
    cases n with
    | zero => simpa using hl.1
    | succ m => simpa using ih hl.2 m

theorem foldl_preserves {S A : Type} (P : S → Prop) (step : S → A → S)
    (l : List A) (s : S) (hs : P s) (hstep : ∀ s a, P s → P (step s a)) :
    P (l.foldl step s) := by
  induction l generalizing s with
  | nil => exact hs
  | cons a l ih => exact ih (step s a) (hstep s a hs)

/-- Modelled from numpy semantics (external collaborator): the
`astype(dtype, casting="safe")` calls at the top of the call closure.  The
conversion always produces a freshly allocated dense array (spec §6: "this
conversion always produces a fresh buffer, never an in-place
reinterpretation"), so the result is writeable, C-contiguous for the
C-contiguous sources handled in this development, and shares memory with no
caller-visible array (`region = none`). -/
def astypeArr {T : Type} (dtT : Nat) (a : NpArr T) : NpArr T :=
  { a with dt := dtT, writeable := true, carray := true, region := none }

/-- The dtype-enforcement step: convert only when the dtype number differs
(`if (arr.dtype().num() != dt) arr = arr.astype(...)`). -/
def coerceArr {T : Type} (dtT : Nat) (a : NpArr T) : NpArr T :=
  if a.dt = dtT then a else astypeArr dtT a

/-- The on-the-fly conversion of a scalar time value into a one-element
numpy array (`py::list ret; ret.append(v); return py::array(ret);`): the
scalar already has the element type `T`, so the resulting fresh array
carries the kernel's dtype. -/
def timeToArr {T : Type} (dtT : Nat) : TimeArg T → NpArr T
  | .scalar v =>
    { shape := [1], data := [v], writeable := true, dt := dtT, carray := true, region := none }
  | .iter a => a

/-- Byte-extent overlap: two regions may share memory iff both are concrete
and the half-open intervals intersect. -/
def regOv : Option (Nat × Nat) → Option (Nat × Nat) → Bool
  | some (s₁, l₁), some (s₂, l₂) => decide (s₁ < s₂ + l₂) && decide (s₂ < s₁ + l₁)
  | _, _ => false

/-- Whether two arrays may share memory. -/
def overlapB {T : Type} (a b : NpArr T) : Bool := regOv a.region b.region

/-- Modelled from the spec (§4.2 Aliasing Checker): the variadic
`may_share_memory` helper declared in `common_utils.hpp` (not part of this
source tree) — true iff some pair of the given arrays may share a memory
region. -/
def anyOverlap {T : Type} : List (NpArr T) → Bool
  | [] => false
  | a :: rest => rest.any (overlapB a) || anyOverlap rest

/-- Modelled from the spec (§4.5): `pyreal_check_array` (declared in
`expose_real.hpp`, not part of this source tree) — all slots of the array
hold values constructed at precision `p` (validation only, no coercion). -/
def precOkArr {T : Type} (ro : RealOps T) (p : Nat) (a : NpArr T) : Bool :=
  a.data.all (fun x => ro.slotPrec x == p)

/-- Modelled from the spec (§4.5): `pyreal_ensure_array` (declared in
`expose_real.hpp`, not part of this source tree) — coerce, in place, every
slot of the array to a value constructed at precision `p`. -/
def ensureArr {T : Type} (ro : RealOps T) (p : Nat) (a : NpArr T) : NpArr T :=
  { a with data := a.data.map (ro.setPrec p) }

/-- Whether the time argument was passed as an iterable
(`!std::holds_alternative<T>(*time_ob)`). -/
def timeIsIter {T : Type} : Option (TimeArg T) → Bool
  | some (.iter _) => true
  | _ => false

/-- Allocation of the outputs array when the caller did not supply one:
shape `(nouts, N)` in batch mode, `(nouts,)` in single mode, with the
kernel's dtype (the post-coercion inputs dtype). -/
def allocOut {T : Type} (t0 : T) (dtT nouts : Nat) (multi : Bool) (N : Nat) : NpArr T :=
  if multi then
    { shape := [nouts, N], data := List.replicate (nouts * N) t0,
      writeable := true, dt := dtT, carray := true, region := none }
  else
    { shape := [nouts], data := List.replicate nouts t0,
      writeable := true, dt := dtT, carray := true, region := none }

/-- The state of a call after all validation succeeded: the post-coercion
arrays, the resolved evaluation mode, the working outputs array (caller's,
or freshly allocated, precision-normalized for `mppp::real`), the zero-copy
decision, and the bookkeeping needed to track the caller-supplied outputs
object (`origOut`, `outConv`). -/
structure Prepared (T : Type) where
  multi : Bool
  inputs : NpArr T
  outp : NpArr T
  pars : Option (NpArr T)
  time : Option (NpArr T)
  zc : Bool
  origOut : Option (NpArr T)
  outConv : Bool
deriving DecidableEq, Repr

/-- The value `prepareCall` produces when every validation check passes:
coerced arrays, resolved mode, working outputs (allocated if absent,
`pyreal_ensure_array`-normalized for `mppp::real`), and the zero-copy flag
computed from `is_npy_array_carray` on the arrays in use plus the
`may_share_memory` test. -/
def mkPrepared {T : Type} (m : CfMeta) (R : Option (RealOps T)) (t0 : T)
    (inputs0 : NpArr T) (outputs0 pars0 : Option (NpArr T)) (time0 : Option (TimeArg T)) :
    Prepared T :=
  let inputs := coerceArr m.dt inputs0
  let pars := pars0.map (coerceArr m.dt)
  let time := (time0.map (timeToArr m.dt)).map (coerceArr m.dt)
  let multi : Bool := decide (inputs.ndim = 2)
  let outConv : Bool := match outputs0 with
    | some o => !decide (o.dt = m.dt)
    | none => false
  let out0 := match outputs0 with
    | some o => coerceArr m.dt o
    | none => allocOut t0 m.dt m.nouts multi inputs.shape1
  let outp := match R with
    | some ro => ensureArr ro m.prec out0
    | none => out0
  let zc0 := inputs.carray && outp.carray
      && (match pars with | some pa => pa.carray | none => true)
      && (match time with | some ta => ta.carray | none => true)
  let share := anyOverlap (([some inputs, some outp, pars, time] : List (Option (NpArr T))).filterMap id)
  { multi := multi, inputs := inputs, outp := outp, pars := pars, time := time,
    zc := zc0 && !share, origOut := outputs0, outConv := outConv }

/-- The checks performed on a caller-supplied outputs array, in source
order: writability, dimensionality, first-dimension size, batch size. -/
def outChecks {T : Type} (nouts inputsNdim N : Nat) (multi : Bool) (oc : NpArr T) :
    Option CfErr :=
  if oc.writeable = false then some .outputNotWritable
  else if ¬ oc.ndim = inputsNdim then some .badOutputsDim
  else if ¬ oc.shape0 = nouts then some .badOutputsSize
  else if multi = true ∧ ¬ oc.shape1 = N then some .badOutputsBatch
  else none

/-- The checks performed on the parameter array, in source order:
dimensionality, first-dimension size, batch size, `mppp::real` precision. -/
def parsChecks {T : Type} (m : CfMeta) (R : Option (RealOps T)) (inputsNdim N : Nat)
    (multi : Bool) (pars : Option (NpArr T)) : Option CfErr :=
  match pars with
  | none => none
  | some pa =>
    if ¬ pa.ndim = inputsNdim then some .badParsDim
    else if ¬ pa.shape0 = m.nparams then some .badParsSize
    else if multi = true ∧ ¬ pa.shape1 = N then some .badParsBatch
    else match R with
      | some ro => if precOkArr ro m.prec pa = false then some .precPars else none
      | none => none

/-- The checks performed on the time array, in source order:
one-dimensionality, batch size, `mppp::real` precision. -/
def timeChecks {T : Type} (m : CfMeta) (R : Option (RealOps T)) (N : Nat)
    (multi : Bool) (time : Option (NpArr T)) : Option CfErr :=
  match time with
  | none => none
  | some ta =>
    if ¬ ta.ndim = 1 then some .badTimeDim
    else if multi = true ∧ ¬ ta.shape0 = N then some .badTimeBatch
    else match R with
      | some ro => if precOkArr ro m.prec ta = false then some .precTime else none
      | none => none

/-- The tail of the validation pipeline, entered after the outputs array has
been resolved: the `mppp::real` precision check of the inputs, the in-place
precision normalization of the outputs (`pyreal_ensure_array`), the
parameter checks and the time checks.  Errors carry the contents of the
caller-supplied outputs array object at the moment of the throw: for the
checks after the normalization point this is the normalized array whenever
the caller's array itself was the working array (matching dtype). -/
def prepareTail {T : Type} (m : CfMeta) (R : Option (RealOps T)) (t0 : T)
    (inputs0 : NpArr T) (outputs0 pars0 : Option (NpArr T)) (time0 : Option (TimeArg T)) :
    Except (CfErr × Option (NpArr T)) (Prepared T) :=
  let inputs := coerceArr m.dt inputs0
  let pars := pars0.map (coerceArr m.dt)
  let time := (time0.map (timeToArr m.dt)).map (coerceArr m.dt)
  let multi : Bool := decide (inputs.ndim = 2)
  let P := mkPrepared m R t0 inputs0 outputs0 pars0 time0
  let coPay : Option (NpArr T) := match outputs0 with
    | none => none
    | some o => if o.dt = m.dt then some P.outp else some o
  let hdErr : Option CfErr := match R with
    | some ro => if precOkArr ro m.prec inputs = false then some .precInputs else none
    | none => none
  match hdErr with
  | some e => .error (e, outputs0)
  | none =>
    match parsChecks m R inputs.ndim inputs.shape1 multi pars with
    | some e => .error (e, coPay)
    | none =>
      match timeChecks m R inputs.shape1 multi time with
      | some e => .error (e, coPay)
      | none => .ok P

/-- The validation pipeline of the call closure, in source order: dtype
coercion; missing-parameters and missing-time checks; inputs
dimensionality and first-dimension size; the scalar-time check for single
evaluations; the outputs checks (or allocation); then `prepareTail`.
Errors carry the contents of the caller-supplied outputs array object at
the moment of the throw. -/
def prepareCall {T : Type} (m : CfMeta) (R : Option (RealOps T)) (t0 : T)
    (inputs0 : NpArr T) (outputs0 pars0 : Option (NpArr T)) (time0 : Option (TimeArg T)) :
    Except (CfErr × Option (NpArr T)) (Prepared T) :=
  let inputs := coerceArr m.dt inputs0
  let pars := pars0.map (coerceArr m.dt)
  let time := (time0.map (timeToArr m.dt)).map (coerceArr m.dt)
  if 0 < m.nparams ∧ pars.isNone = true then .error (.missingParams, outputs0)
  else if m.is_time_dependent = true ∧ time.isNone = true then .error (.missingTime, outputs0)
  else if ¬ (inputs.ndim = 1 ∨ inputs.ndim = 2) then .error (.badInputsDim, outputs0)
  else if ¬ inputs.shape0 = m.nvars then .error (.badInputsSize, outputs0)
  else if timeIsIter time0 = true ∧ ¬ inputs.ndim = 2 then .error (.scalarTimeExpected, outputs0)
  else
    match outputs0 with
    | some o =>
      match outChecks m.nouts inputs.ndim inputs.shape1 (decide (inputs.ndim = 2)) (coerceArr m.dt o) with
      | some e => .error (e, outputs0)
      | none => prepareTail m R t0 inputs0 outputs0 pars0 time0
    | none => prepareTail m R t0 inputs0 outputs0 pars0 time0

theorem wpos_of_lt_mul {c B W : Nat} (h : c < B * W) : 0 < W := by
  rcases Nat.eq_zero_or_pos W with h0 | h0
  · subst h0; simp at h
  · exact h0

/-- The trace of kernel invocations performed by the zero-copy batch path:
one strided batch call per full SIMD block (`for k in [0, N/W)`), pointers
advanced by `k·W` elements, then one strided scalar call per remainder point
(`for k in [N/W·W, N)`), pointers advanced by `k`; stride `N` throughout.  A
role pointer is passed as null (`none`), never advanced, when the role is
not read (`read_inputs`/`read_pars`/`read_time` in the source). -/
def zcMultiTrace (m : CfMeta) (N : Nat) : List KInv :=
  let W := m.simd_size
  let B := N / W
  let iOff : Nat → Option Nat := fun off => if 0 < m.nvars then some off else none
  let pOff : Nat → Option Nat := fun off => if 0 < m.nparams then some off else none
  let tOff : Nat → Option Nat := fun off => if m.is_time_dependent = true then some off else none
  ((List.range B).map fun k => KInv.batchS (k * W) (iOff (k * W)) (pOff (k * W)) (tOff (k * W)) N)
    ++ ((List.range' (B * W) (N - B * W)).map fun k => KInv.scalS k (iOff k) (pOff k) (tOff k) N)

/-- The outputs data written by the zero-copy batch path.  Position
`(i, c)` of the row-major `(nouts, N)` outputs array is written by the
strided batch kernel of block `c / W` (lane `c % W`) when `c` lies in a
full SIMD block, and by the strided scalar kernel at point `c` otherwise;
the kernels read input variable `v` at `in[v·N + c]`, parameter `p` at
`par[p·N + c]` and the time value at `time[c]` (stride `N`). -/
def zcMultiOut {T : Type} (m : CfMeta) (K : CfKernels T m.nvars m.nouts m.nparams m.simd_size)
    (t0 : T) (inA : NpArr T) (parsA timeA : Option (NpArr T)) (N : Nat)
    (outData : List T) : List T :=
  let W := m.simd_size
  let B := N / W
  listUpd (fun idx x =>
    let i := idx / N
    let c := idx % N
    if hi : i < m.nouts then
      if hc : c < B * W then
        K.fbatch
          (fun v j => inA.data.getD (v.1 * N + ((c / W) * W + j.1)) t0)
          (fun p j => match parsA with
            | some pa => pa.data.getD (p.1 * N + ((c / W) * W + j.1)) t0
            | none => t0)
          (fun j => if m.is_time_dependent then
              (match timeA with | some ta => ta.data.getD ((c / W) * W + j.1) t0 | none => t0)
            else t0)
          ⟨i, hi⟩ ⟨c % W, Nat.mod_lt _ (wpos_of_lt_mul hc)⟩
      else if c < N then
        K.fscal
          (fun v => inA.data.getD (v.1 * N + c) t0)
          (fun p => match parsA with
            | some pa => pa.data.getD (p.1 * N + c) t0
            | none => t0)
          (if m.is_time_dependent then
              (match timeA with | some ta => ta.data.getD c t0 | none => t0)
            else t0)
          ⟨i, hi⟩
      else x
    else x) outData

/-- The outputs data written by the zero-copy single-evaluation path: one
direct scalar-kernel call reading the caller buffers and writing the
`nouts` output slots. -/
def zcSingleData {T : Type} (m : CfMeta) (K : CfKernels T m.nvars m.nouts m.nparams m.simd_size)
    (t0 : T) (inA : NpArr T) (parsA timeA : Option (NpArr T)) (outData : List T) : List T :=
  listUpd (fun i x =>
    if hi : i < m.nouts then
      K.fscal
        (fun v => inA.data.getD v.1 t0)
        (fun p => match parsA with | some pa => pa.data.getD p.1 t0 | none => t0)
        (match timeA with | some ta => ta.data.getD 0 t0 | none => t0)
        ⟨i, hi⟩
    else x) outData

/-- The buffered single-evaluation path: gather the inputs, parameters and
time value into the scratch buffers, invoke the scalar kernel against the
buffers, scatter the first `nouts` scratch output slots into the outputs
array.  Returns the new outputs data and the updated scratch buffers. -/
def bufferedSingle {T : Type} (m : CfMeta) (K : CfKernels T m.nvars m.nouts m.nparams m.simd_size)
    (t0 : T) (inA : NpArr T) (parsA timeA : Option (NpArr T)) (outData : List T)
    (bufs : CfBufs T) : List T × CfBufs T :=
  let b_in := listUpd (fun i x => if i < m.nvars then inA.data.getD i t0 else x) bufs.buf_in
  let b_pars := match parsA with
    | some pa => listUpd (fun i x => if i < m.nparams then pa.data.getD i t0 else x) bufs.buf_pars
    | none => bufs.buf_pars
  let b_time := match timeA with
    | some ta => listUpd (fun i x => if i = 0 then ta.data.getD 0 t0 else x) bufs.buf_time
    | none => bufs.buf_time
  let b_out := listUpd (fun i x =>
    if hi : i < m.nouts then
      K.fscal (fun v => b_in.getD v.1 t0) (fun p => b_pars.getD p.1 t0) (b_time.getD 0 t0) ⟨i, hi⟩
    else x) bufs.buf_out
  (listUpd (fun i x => if i < m.nouts then b_out.getD i t0 else x) outData,
   { buf_in := b_in, buf_out := b_out, buf_pars := b_pars, buf_time := b_time })

/-- Scratch-buffer index `(i·W + j) ↦` source index `i·N + (k·W + j)` used
by the gather loops of the buffered batch path (variable `i`, lane `j`,
block `k`). -/
def gatherIdx (W N k idx : Nat) : Nat := (idx / W) * N + (k * W + idx % W)

/-- One full SIMD block of the buffered batch path: gather `W` points of
each required role into the scratch buffers, invoke the dense batch kernel
against the buffers, scatter the `nouts·W` scratch output slots back into
columns `[k·W, k·W + W)` of the outputs array. -/
def blockStep {T : Type} (m : CfMeta) (K : CfKernels T m.nvars m.nouts m.nparams m.simd_size)
    (t0 : T) (inA : NpArr T) (parsA timeA : Option (NpArr T)) (N : Nat)
    (st : List T × CfBufs T) (k : Nat) : List T × CfBufs T :=
  let W := m.simd_size
  let bufs := st.2
  let b_in := listUpd (fun idx x =>
    if idx < m.nvars * W then inA.data.getD (gatherIdx W N k idx) t0 else x) bufs.buf_in
  let b_pars := match parsA with
    | some pa => listUpd (fun idx x =>
        if idx < m.nparams * W then pa.data.getD (gatherIdx W N k idx) t0 else x) bufs.buf_pars
    | none => bufs.buf_pars
  let b_time := match timeA with
    | some ta => listUpd (fun idx x =>
        if idx < W then ta.data.getD (k * W + idx) t0 else x) bufs.buf_time
    | none => bufs.buf_time
  let b_out := listUpd (fun idx x =>
    if h : idx < m.nouts * W then
      K.fbatch
        (fun v j => b_in.getD (v.1 * W + j.1) t0)
        (fun p j => b_pars.getD (p.1 * W + j.1) t0)
        (fun j => b_time.getD j.1 t0)
        ⟨idx / W, (Nat.div_lt_iff_lt_mul (wpos_of_lt_mul h)).2 h⟩
        ⟨idx % W, Nat.mod_lt _ (wpos_of_lt_mul h)⟩
    else x) bufs.buf_out
  let outD := listUpd (fun idx x =>
    let i := idx / N
    let c := idx % N
    if i < m.nouts ∧ k * W ≤ c ∧ c < k * W + W then b_out.getD (i * W + (c - k * W)) t0 else x) st.1
  (outD, ⟨b_in, b_out, b_pars, b_time⟩)

/-- One remainder point of the buffered batch path: gather one point of
each required role into the scratch buffers, invoke the scalar kernel
against the buffers, scatter the first `nouts` scratch output slots into
column `k` of the outputs array. -/
def remStep {T : Type} (m : CfMeta) (K : CfKernels T m.nvars m.nouts m.nparams m.simd_size)
    (t0 : T) (inA : NpArr T) (parsA timeA : Option (NpArr T)) (N : Nat)
    (st : List T × CfBufs T) (k : Nat) : List T × CfBufs T :=
  let bufs := st.2
  let b_in := listUpd (fun i x =>
    if i < m.nvars then inA.data.getD (i * N + k) t0 else x) bufs.buf_in
  let b_pars := match parsA with
    | some pa => listUpd (fun i x =>
        if i < m.nparams then pa.data.getD (i * N + k) t0 else x) bufs.buf_pars
    | none => bufs.buf_pars
  let b_time := match timeA with
    | some ta => listUpd (fun i x => if i = 0 then ta.data.getD k t0 else x) bufs.buf_time
    | none => bufs.buf_time
  let b_out := listUpd (fun i x =>
    if hi : i < m.nouts then
      K.fscal (fun v => b_in.getD v.1 t0) (fun p => b_pars.getD p.1 t0) (b_time.getD 0 t0) ⟨i, hi⟩
    else x) bufs.buf_out
  let outD := listUpd (fun idx x =>
    if idx / N < m.nouts ∧ idx % N = k then b_out.getD (idx / N) t0 else x) st.1
  (outD, ⟨b_in, b_out, b_pars, b_time⟩)

/-- The evaluation dispatcher: the four concrete cases of the two
orthogonal axes (single/batch × zero-copy/buffered), exactly as in the
`multi_eval`/`zero_copy` branching of the source.  Returns the final
outputs array, the trace of kernel invocations, and the final scratch
buffers. -/
def dispatchCall {T : Type} (m : CfMeta) (K : CfKernels T m.nvars m.nouts m.nparams m.simd_size)
    (t0 : T) (bufs : CfBufs T) (P : Prepared T) : NpArr T × List KInv × CfBufs T :=
  if P.multi = true then
    let N := P.inputs.shape1
    let W := m.simd_size
    let B := N / W
    if P.zc = true then
      ({ P.outp with data := zcMultiOut m K t0 P.inputs P.pars P.time N P.outp.data },
       zcMultiTrace m N, bufs)
    else
      let st1 := (List.range B).foldl (blockStep m K t0 P.inputs P.pars P.time N) (P.outp.data, bufs)
      let st2 := (List.range' (B * W) (N - B * W)).foldl (remStep m K t0 P.inputs P.pars P.time N) st1
      ({ P.outp with data := st2.1 },
       (List.range B).map (fun _ => KInv.batchB)
         ++ (List.range' (B * W) (N - B * W)).map (fun _ => KInv.scalB),
       st2.2)
  else
    if P.zc = true then
      ({ P.outp with data := zcSingleData m K t0 P.inputs P.pars P.time P.outp.data },
       [KInv.scalZ true P.pars.isSome P.time.isSome], bufs)
    else
      let r := bufferedSingle m K t0 P.inputs P.pars P.time P.outp.data bufs
      ({ P.outp with data := r.1 }, [KInv.scalB], r.2)

deriving instance DecidableEq for Except

/-- The observable outcome of one evaluation call: the returned value (the
outputs array, or the raised error), the final contents of the
caller-supplied outputs array object (`none` when the caller supplied no
outputs array), the trace of kernel invocations, and the final scratch
buffers.  The caller's inputs, parameter and time buffers are only ever
read by the closure, so they are not tracked. -/
structure CfOutcome (T : Type) where
  res : Except CfErr (NpArr T)
  callerOutputs : Option (NpArr T)
  trace : List KInv
  bufs : CfBufs T
deriving DecidableEq, Repr

/-- The full evaluation call: validation (`prepareCall`) followed by
dispatch.  On success, when the caller-supplied outputs array had the
kernel's dtype it was the working array and is returned (reused in place);
when its dtype differed, the freshly converted array is returned and the
caller's object is unchanged. -/
def cfuncCall {T : Type} (m : CfMeta) (R : Option (RealOps T))
    (K : CfKernels T m.nvars m.nouts m.nparams m.simd_size) (t0 : T) (bufs : CfBufs T)
    (inputs0 : NpArr T) (outputs0 pars0 : Option (NpArr T)) (time0 : Option (TimeArg T)) :
    CfOutcome T :=
  match prepareCall m R t0 inputs0 outputs0 pars0 time0 with
  | .error ec => { res := .error ec.1, callerOutputs := ec.2, trace := [], bufs := bufs }
  | .ok P =>
    let r := dispatchCall m K t0 bufs P
    { res := .ok r.1,
      callerOutputs := match P.origOut with
        | none => none
        | some o => if P.outConv = true then some o else some r.1,
      trace := r.2.1,
      bufs := r.2.2 }

/-- Construction of the scratch buffers (`buf_in.resize(nvars * simd_size)`
and companions). -/
def mkCfBufs {T : Type} (t0 : T) (m : CfMeta) : CfBufs T :=
  { buf_in := List.replicate (m.nvars * m.simd_size) t0,
    buf_out := List.replicate (m.nouts * m.simd_size) t0,
    buf_pars := List.replicate (m.nparams * m.simd_size) t0,
    buf_time := List.replicate m.simd_size t0 }

/-- Construction of the scratch buffers followed by the one-time precision
normalization performed for `mppp::real` (every slot `set_prec(prec)`). -/
def initCfBufs {T : Type} (m : CfMeta) (R : Option (RealOps T)) (t0 : T) : CfBufs T :=
  match R with
  | some ro =>
    let b := mkCfBufs t0 m
    { buf_in := b.buf_in.map (ro.setPrec m.prec),
      buf_out := b.buf_out.map (ro.setPrec m.prec),
      buf_pars := b.buf_pars.map (ro.setPrec m.prec),
      buf_time := b.buf_time.map (ro.setPrec m.prec) }
  | none => mkCfBufs t0 m

@[simp] theorem shape_coerce {T : Type} (d : Nat) (a : NpArr T) :
    (coerceArr d a).shape = a.shape := by
  unfold coerceArr astypeArr; split <;> rfl

@[simp] theorem data_coerce {T : Type} (d : Nat) (a : NpArr T) :
    (coerceArr d a).data = a.data := by
  unfold coerceArr astypeArr; split <;> rfl

@[simp] theorem ndim_coerce {T : Type} (d : Nat) (a : NpArr T) :
    (coerceArr d a).ndim = a.ndim := by
  unfold NpArr.ndim; rw [shape_coerce]

@[simp] theorem shape0_coerce {T : Type} (d : Nat) (a : NpArr T) :
    (coerceArr d a).shape0 = a.shape0 := by
  unfold NpArr.shape0; rw [shape_coerce]

@[simp] theorem shape1_coerce {T : Type} (d : Nat) (a : NpArr T) :
    (coerceArr d a).shape1 = a.shape1 := by
  unfold NpArr.shape1; rw [shape_coerce]

@[simp] theorem precOk_coerce {T : Type} (ro : RealOps T) (p d : Nat) (a : NpArr T) :
    precOkArr ro p (coerceArr d a) = precOkArr ro p a := by
  unfold precOkArr; rw [data_coerce]

/-- All validation checks of the call closure, packaged: a call whose
arguments satisfy `ValidPre` raises no error.  The fields mirror the checks
in source order; shape conditions are stated on the caller's arrays (dtype
coercion preserves shapes). -/
structure ValidPre {T : Type} (m : CfMeta) (R : Option (RealOps T)) (inputs0 : NpArr T)
    (outputs0 pars0 : Option (NpArr T)) (time0 : Option (TimeArg T)) : Prop where
  hpars : 0 < m.nparams → pars0 ≠ none
  htime : m.is_time_dependent = true → time0 ≠ none
  hdim : inputs0.ndim = 1 ∨ inputs0.ndim = 2
  hins : inputs0.shape0 = m.nvars
  hsct : timeIsIter time0 = true → inputs0.ndim = 2
  houts : ∀ o, outputs0 = some o →
    (coerceArr m.dt o).writeable = true ∧ o.ndim = inputs0.ndim ∧ o.shape0 = m.nouts ∧
      (inputs0.ndim = 2 → o.shape1 = inputs0.shape1)
  hprecIn : ∀ ro, R = some ro → precOkArr ro m.prec inputs0 = true
  hparsA : ∀ pa, pars0 = some pa →
    pa.ndim = inputs0.ndim ∧ pa.shape0 = m.nparams ∧
      (inputs0.ndim = 2 → pa.shape1 = inputs0.shape1) ∧
      (∀ ro, R = some ro → precOkArr ro m.prec pa = true)
  htimeA : ∀ t, time0 = some t →
    (timeToArr m.dt t).ndim = 1 ∧
      (inputs0.ndim = 2 → (timeToArr m.dt t).shape0 = inputs0.shape1) ∧
      (∀ ro, R = some ro → precOkArr ro m.prec (timeToArr m.dt t) = true)


theorem prepareTail_valid {T : Type} {m : CfMeta} {R : Option (RealOps T)} {t0 : T}
    {inputs0 : NpArr T} {outputs0 pars0 : Option (NpArr T)} {time0 : Option (TimeArg T)}
    (hpi : ∀ ro, R = some ro → precOkArr ro m.prec inputs0 = true)
    (hpa : ∀ pa, pars0 = some pa →
      pa.ndim = inputs0.ndim ∧ pa.shape0 = m.nparams ∧
        (inputs0.ndim = 2 → pa.shape1 = inputs0.shape1) ∧
        (∀ ro, R = some ro → precOkArr ro m.prec pa = true))
    (hta : ∀ t, time0 = some t →
      (timeToArr m.dt t).ndim = 1 ∧
        (inputs0.ndim = 2 → (timeToArr m.dt t).shape0 = inputs0.shape1) ∧
        (∀ ro, R = some ro → precOkArr ro m.prec (timeToArr m.dt t) = true)) :
    prepareTail m R t0 inputs0 outputs0 pars0 time0
      = .ok (mkPrepared m R t0 inputs0 outputs0 pars0 time0) := by
  have hParsChk : parsChecks m R (coerceArr m.dt inputs0).ndim (coerceArr m.dt inputs0).shape1
      (decide ((coerceArr m.dt inputs0).ndim = 2)) (Option.map (coerceArr m.dt) pars0) = none := by
    rcases pars0 with _ | pa
    · rfl
    · obtain ⟨h1, h2, h3, h4⟩ := hpa pa rfl
      simp only [parsChecks, Option.map_some']
      rw [if_neg (by simp [h1]), if_neg (by simp [h2]), if_neg]
      · cases R with
        | none => rfl
        | some ro => simp [precOk_coerce, h4 ro rfl]
      · rintro ⟨hm, hne⟩
        simp only [decide_eq_true_eq, ndim_coerce] at hm
        exact hne (by simp [h3 hm])
  have hTimeChk : timeChecks m R (coerceArr m.dt inputs0).shape1
      (decide ((coerceArr m.dt inputs0).ndim = 2))
      (Option.map (coerceArr m.dt) (Option.map (timeToArr m.dt) time0)) = none := by
    rcases time0 with _ | t
    · rfl
    · obtain ⟨h1, h2, h3⟩ := hta t rfl
      simp only [Option.map_some', timeChecks]
      rw [if_neg (by simp [h1]), if_neg]
      · cases R with
        | none => rfl
        | some ro => simp [precOk_coerce, h3 ro rfl]
      · rintro ⟨hm, hne⟩
        simp only [decide_eq_true_eq, ndim_coerce] at hm
        exact hne (by simp [h2 hm])
  rcases R with _ | ro
  · simp only [prepareTail, hParsChk, hTimeChk]
  · have hne : ¬(precOkArr ro m.prec (coerceArr m.dt inputs0) = false) := by
      simp [precOk_coerce, hpi ro rfl]
    simp only [prepareTail, hParsChk, hTimeChk, if_neg hne]

theorem prepare_valid {T : Type} {m : CfMeta} {R : Option (RealOps T)} {t0 : T}
    {inputs0 : NpArr T} {outputs0 pars0 : Option (NpArr T)} {time0 : Option (TimeArg T)}
    (h : ValidPre m R inputs0 outputs0 pars0 time0) :
    prepareCall m R t0 inputs0 outputs0 pars0 time0
      = .ok (mkPrepared m R t0 inputs0 outputs0 pars0 time0) := by
  obtain ⟨hp, ht, hd, hi, hs, ho, hpi, hpa, hta⟩ := h
  have c1 : ¬(0 < m.nparams ∧ (Option.map (coerceArr m.dt) pars0).isNone = true) := by
    rintro ⟨h1, h2⟩
    rcases pars0 with _ | pa
    · exact hp h1 rfl
    · simp at h2
  have c2 : ¬(m.is_time_dependent = true
      ∧ (Option.map (coerceArr m.dt) (Option.map (timeToArr m.dt) time0)).isNone = true) := by
    rintro ⟨h1, h2⟩
    rcases time0 with _ | t
    · exact ht h1 rfl
    · simp at h2
  have c3 : ¬¬((coerceArr m.dt inputs0).ndim = 1 ∨ (coerceArr m.dt inputs0).ndim = 2) := by
    simp only [ndim_coerce]; exact not_not_intro hd
  have c4 : ¬¬((coerceArr m.dt inputs0).shape0 = m.nvars) := by
    simp only [shape0_coerce]; exact not_not_intro hi
  have c5 : ¬(timeIsIter time0 = true ∧ ¬(coerceArr m.dt inputs0).ndim = 2) := by
    rintro ⟨h1, h2⟩
    exact h2 (by simpa using hs h1)
  simp only [prepareCall, if_neg c1, if_neg c2, if_neg c3, if_neg c4, if_neg c5]
  rcases houts0 : outputs0 with _ | o
  · exact prepareTail_valid hpi hpa hta
  · obtain ⟨h1, h2, h3, h4⟩ := ho o houts0
    have hOutChk : outChecks m.nouts (coerceArr m.dt inputs0).ndim
        (coerceArr m.dt inputs0).shape1 (decide ((coerceArr m.dt inputs0).ndim = 2))
        (coerceArr m.dt o) = none := by
      unfold outChecks
      rw [if_neg (by simp [h1]), if_neg (by simp [h2]), if_neg (by simp [h3]), if_neg]
      rintro ⟨hm, hne⟩
      simp only [decide_eq_true_eq, ndim_coerce] at hm
      exact hne (by simp [h4 hm])
    simp only [hOutChk]
    exact prepareTail_valid hpi hpa hta

theorem parsChecks_none_prec {T : Type} {m : CfMeta} {ro : RealOps T} {nd N : Nat}
    {mult : Bool} {pa : NpArr T}
    (h : parsChecks m (some ro) nd N mult (some pa) = none) :
    precOkArr ro m.prec pa = true := by
  simp only [parsChecks] at h
  split at h
  · exact absurd h (by simp)
  · split at h
    · exact absurd h (by simp)
    · split at h
      · exact absurd h (by simp)
      · split at h
        · exact absurd h (by simp)
        · rename_i hb
          exact Bool.eq_true_of_not_eq_false hb

theorem timeChecks_none_prec {T : Type} {m : CfMeta} {ro : RealOps T} {N : Nat}
    {mult : Bool} {ta : NpArr T}
    (h : timeChecks m (some ro) N mult (some ta) = none) :
    precOkArr ro m.prec ta = true := by
  simp only [timeChecks] at h
  split at h
  · exact absurd h (by simp)
  · split at h
    · exact absurd h (by simp)
    · split at h
      · exact absurd h (by simp)
      · rename_i hb
        exact Bool.eq_true_of_not_eq_false hb

theorem prepareTail_ok_facts {T : Type} {m : CfMeta} {R : Option (RealOps T)} {t0 : T}
    {inputs0 : NpArr T} {outputs0 pars0 : Option (NpArr T)} {time0 : Option (TimeArg T)}
    {P : Prepared T} (h : prepareTail m R t0 inputs0 outputs0 pars0 time0 = .ok P) :
    P = mkPrepared m R t0 inputs0 outputs0 pars0 time0
      ∧ (∀ ro, R = some ro → precOkArr ro m.prec inputs0 = true)
      ∧ (∀ pa ro, pars0 = some pa → R = some ro → precOkArr ro m.prec pa = true)
      ∧ (∀ ta ro, time0 = some ta → R = some ro →
          precOkArr ro m.prec (timeToArr m.dt ta) = true) := by
  simp only [prepareTail] at h
  split at h
  · simp at h
  · rename_i hhd
    split at h
    · simp at h
    · rename_i hpc
      split at h
      · simp at h
      · rename_i htc
        refine ⟨(Except.ok.inj h).symm, ?_, ?_, ?_⟩
        · intro ro hr
          subst hr
          by_cases hb : precOkArr ro m.prec (coerceArr m.dt inputs0) = false
          · simp [hb] at hhd
          · have := Bool.eq_true_of_not_eq_false hb
            simpa [precOk_coerce] using this
        · intro pa ro hp hr
          subst hp; subst hr
          simp only [Option.map_some'] at hpc
          have := parsChecks_none_prec hpc
          simpa [precOk_coerce] using this
        · intro ta ro htv hr
          subst htv; subst hr
          simp only [Option.map_some'] at htc
          have := timeChecks_none_prec htc
          simpa [precOk_coerce] using this

theorem prepare_ok_facts {T : Type} {m : CfMeta} {R : Option (RealOps T)} {t0 : T}
    {inputs0 : NpArr T} {outputs0 pars0 : Option (NpArr T)} {time0 : Option (TimeArg T)}
    {P : Prepared T} (h : prepareCall m R t0 inputs0 outputs0 pars0 time0 = .ok P) :
    P = mkPrepared m R t0 inputs0 outputs0 pars0 time0
      ∧ (∀ ro, R = some ro → precOkArr ro m.prec inputs0 = true)
      ∧ (∀ pa ro, pars0 = some pa → R = some ro → precOkArr ro m.prec pa = true)
      ∧ (∀ ta ro, time0 = some ta → R = some ro →
          precOkArr ro m.prec (timeToArr m.dt ta) = true) := by
  simp only [prepareCall] at h
  repeat' split at h
  all_goals try (exact prepareTail_ok_facts h)
  all_goals simp at h

/-- The in-place effect of `pyreal_ensure_array` on a caller-supplied
outputs array of matching dtype, as observed through the working array:
identity for the non-`mppp::real` instantiations. -/
def ensureEffect {T : Type} (m : CfMeta) (R : Option (RealOps T)) (o : NpArr T) : NpArr T :=
  match R with
  | some ro => ensureArr ro m.prec o
  | none => o

theorem mkPrepared_outp_dtEq {T : Type} {m : CfMeta} {R : Option (RealOps T)} {t0 : T}
    {inputs0 : NpArr T} {pars0 : Option (NpArr T)} {time0 : Option (TimeArg T)}
    {o : NpArr T} (hdt : o.dt = m.dt) :
    (mkPrepared m R t0 inputs0 (some o) pars0 time0).outp = ensureEffect m R o := by
  cases R with
  | none => simp [mkPrepared, ensureEffect, coerceArr, hdt]
  | some ro => simp [mkPrepared, ensureEffect, coerceArr, hdt]

theorem payload_of_err {A B C : Type} {x : A × B} {e : A} {co : B}
    (h : (Except.error x : Except (A × B) C) = .error (e, co)) : co = x.2 := by
  have hx := Except.error.inj h
  rw [hx]

theorem prepareTail_error_payload {T : Type} {m : CfMeta} {R : Option (RealOps T)} {t0 : T}
    {inputs0 : NpArr T} {outputs0 pars0 : Option (NpArr T)} {time0 : Option (TimeArg T)}
    {e : CfErr} {co : Option (NpArr T)}
    (h : prepareTail m R t0 inputs0 outputs0 pars0 time0 = .error (e, co)) :
    co = outputs0 ∨ co = Option.map (ensureEffect m R) outputs0 := by
  rcases houts : outputs0 with _ | o
  · subst houts
    left
    simp only [prepareTail] at h
    split at h
    · exact payload_of_err h
    · split at h
      · exact payload_of_err h
      · split at h
        · exact payload_of_err h
        · simp at h
  · subst houts
    by_cases hdt : o.dt = m.dt
    · simp only [prepareTail, if_pos hdt] at h
      split at h
      · left; exact payload_of_err h
      · split at h
        · right
          have hco := payload_of_err h
          rw [hco, mkPrepared_outp_dtEq hdt]
          rfl
        · split at h
          · right
            have hco := payload_of_err h
            rw [hco, mkPrepared_outp_dtEq hdt]
            rfl
          · simp at h
    · simp only [prepareTail, if_neg hdt] at h
      left
      split at h
      · exact payload_of_err h
      · split at h
        · exact payload_of_err h
        · split at h
          · exact payload_of_err h
          · simp at h

theorem prepare_error_payload {T : Type} {m : CfMeta} {R : Option (RealOps T)} {t0 : T}
    {inputs0 : NpArr T} {outputs0 pars0 : Option (NpArr T)} {time0 : Option (TimeArg T)}
    {e : CfErr} {co : Option (NpArr T)}
    (h : prepareCall m R t0 inputs0 outputs0 pars0 time0 = .error (e, co)) :
    co = outputs0 ∨ co = Option.map (ensureEffect m R) outputs0 := by
  simp only [prepareCall] at h
  repeat' split at h
  all_goals try (exact prepareTail_error_payload h)
  all_goals left
  all_goals exact (congrArg Prod.snd (Except.error.inj h)).symm

@[simp] theorem mkPrepared_inputs {T : Type} (m : CfMeta) (R : Option (RealOps T)) (t0 : T)
    (i : NpArr T) (o p : Option (NpArr T)) (t : Option (TimeArg T)) :
    (mkPrepared m R t0 i o p t).inputs = coerceArr m.dt i := rfl

@[simp] theorem mkPrepared_pars {T : Type} (m : CfMeta) (R : Option (RealOps T)) (t0 : T)
    (i : NpArr T) (o p : Option (NpArr T)) (t : Option (TimeArg T)) :
    (mkPrepared m R t0 i o p t).pars = p.map (coerceArr m.dt) := rfl

@[simp] theorem mkPrepared_time {T : Type} (m : CfMeta) (R : Option (RealOps T)) (t0 : T)
    (i : NpArr T) (o p : Option (NpArr T)) (t : Option (TimeArg T)) :
    (mkPrepared m R t0 i o p t).time = (t.map (timeToArr m.dt)).map (coerceArr m.dt) := rfl

@[simp] theorem mkPrepared_multi {T : Type} (m : CfMeta) (R : Option (RealOps T)) (t0 : T)
    (i : NpArr T) (o p : Option (NpArr T)) (t : Option (TimeArg T)) :
    (mkPrepared m R t0 i o p t).multi = decide ((coerceArr m.dt i).ndim = 2) := rfl

@[simp] theorem mkPrepared_origOut {T : Type} (m : CfMeta) (R : Option (RealOps T)) (t0 : T)
    (i : NpArr T) (o p : Option (NpArr T)) (t : Option (TimeArg T)) :
    (mkPrepared m R t0 i o p t).origOut = o := rfl

@[simp] theorem mkPrepared_outConv_none {T : Type} (m : CfMeta) (R : Option (RealOps T)) (t0 : T)
    (i : NpArr T) (p : Option (NpArr T)) (t : Option (TimeArg T)) :
    (mkPrepared m R t0 i none p t).outConv = false := rfl

@[simp] theorem mkPrepared_outConv_some {T : Type} (m : CfMeta) (R : Option (RealOps T)) (t0 : T)
    (i : NpArr T) (o : NpArr T) (p : Option (NpArr T)) (t : Option (TimeArg T)) :
    (mkPrepared m R t0 i (some o) p t).outConv = !decide (o.dt = m.dt) := rfl

theorem mkPrepared_outp_none {T : Type} (m : CfMeta) (R : Option (RealOps T)) (t0 : T)
    (i : NpArr T) (p : Option (NpArr T)) (t : Option (TimeArg T)) :
    (mkPrepared m R t0 i none p t).outp
      = (match R with
        | some ro => ensureArr ro m.prec
            (allocOut t0 m.dt m.nouts (decide ((coerceArr m.dt i).ndim = 2)) (coerceArr m.dt i).shape1)
        | none => allocOut t0 m.dt m.nouts (decide ((coerceArr m.dt i).ndim = 2)) (coerceArr m.dt i).shape1) := rfl

theorem mkPrepared_outp_some {T : Type} (m : CfMeta) (R : Option (RealOps T)) (t0 : T)
    (i : NpArr T) (o : NpArr T) (p : Option (NpArr T)) (t : Option (TimeArg T)) :
    (mkPrepared m R t0 i (some o) p t).outp
      = (match R with
        | some ro => ensureArr ro m.prec (coerceArr m.dt o)
        | none => coerceArr m.dt o) := rfl

theorem cfuncCall_eq_of_prepare_ok {T : Type} {m : CfMeta} {R : Option (RealOps T)}
    (K : CfKernels T m.nvars m.nouts m.nparams m.simd_size) (t0 : T) (bufs : CfBufs T)
    {inputs0 : NpArr T} {outputs0 pars0 : Option (NpArr T)} {time0 : Option (TimeArg T)}
    {P : Prepared T} (hp : prepareCall m R t0 inputs0 outputs0 pars0 time0 = .ok P) :
    cfuncCall m R K t0 bufs inputs0 outputs0 pars0 time0 =
      { res := .ok (dispatchCall m K t0 bufs P).1,
        callerOutputs := match P.origOut with
          | none => none
          | some o => if P.outConv = true then some o else some (dispatchCall m K t0 bufs P).1,
        trace := (dispatchCall m K t0 bufs P).2.1,
        bufs := (dispatchCall m K t0 bufs P).2.2 } := by
  unfold cfuncCall
  rw [hp]

theorem cfuncCall_eq_of_prepare_error {T : Type} {m : CfMeta} {R : Option (RealOps T)}
    (K : CfKernels T m.nvars m.nouts m.nparams m.simd_size) (t0 : T) (bufs : CfBufs T)
    {inputs0 : NpArr T} {outputs0 pars0 : Option (NpArr T)} {time0 : Option (TimeArg T)}
    {ec : CfErr × Option (NpArr T)}
    (hp : prepareCall m R t0 inputs0 outputs0 pars0 time0 = .error ec) :
    cfuncCall m R K t0 bufs inputs0 outputs0 pars0 time0 =
      { res := .error ec.1, callerOutputs := ec.2, trace := [], bufs := bufs } := by
  unfold cfuncCall
  rw [hp]

theorem cfuncCall_of_ok {T : Type} {m : CfMeta} {R : Option (RealOps T)}
    {K : CfKernels T m.nvars m.nouts m.nparams m.simd_size} {t0 : T} {bufs : CfBufs T}
    {inputs0 : NpArr T} {outputs0 pars0 : Option (NpArr T)} {time0 : Option (TimeArg T)}
    {r : NpArr T}
    (h : (cfuncCall m R K t0 bufs inputs0 outputs0 pars0 time0).res = .ok r) :
    ∃ P, prepareCall m R t0 inputs0 outputs0 pars0 time0 = .ok P
      ∧ r = (dispatchCall m K t0 bufs P).1
      ∧ (cfuncCall m R K t0 bufs inputs0 outputs0 pars0 time0).trace
          = (dispatchCall m K t0 bufs P).2.1
      ∧ (cfuncCall m R K t0 bufs inputs0 outputs0 pars0 time0).bufs
          = (dispatchCall m K t0 bufs P).2.2 := by
  rcases hE : prepareCall m R t0 inputs0 outputs0 pars0 time0 with ec | P
  · rw [cfuncCall_eq_of_prepare_error K t0 bufs hE] at h
    simp at h
  · rw [cfuncCall_eq_of_prepare_ok K t0 bufs hE] at h
    rw [cfuncCall_eq_of_prepare_ok K t0 bufs hE]
    exact ⟨P, rfl, (Except.ok.inj h).symm, rfl, rfl⟩

theorem cfuncCall_of_error {T : Type} {m : CfMeta} {R : Option (RealOps T)}
    {K : CfKernels T m.nvars m.nouts m.nparams m.simd_size} {t0 : T} {bufs : CfBufs T}
    {inputs0 : NpArr T} {outputs0 pars0 : Option (NpArr T)} {time0 : Option (TimeArg T)}
    {e : CfErr}
    (h : (cfuncCall m R K t0 bufs inputs0 outputs0 pars0 time0).res = .error e) :
    ∃ co, prepareCall m R t0 inputs0 outputs0 pars0 time0 = .error (e, co)
      ∧ (cfuncCall m R K t0 bufs inputs0 outputs0 pars0 time0).callerOutputs = co
      ∧ (cfuncCall m R K t0 bufs inputs0 outputs0 pars0 time0).trace = []
      ∧ (cfuncCall m R K t0 bufs inputs0 outputs0 pars0 time0).bufs = bufs := by
  rcases hE : prepareCall m R t0 inputs0 outputs0 pars0 time0 with ec | P
  · rw [cfuncCall_eq_of_prepare_error K t0 bufs hE] at h
    rw [cfuncCall_eq_of_prepare_error K t0 bufs hE]
    have h1 : ec.1 = e := Except.error.inj h
    refine ⟨ec.2, ?_, rfl, rfl, rfl⟩
    rw [← h1]
  · rw [cfuncCall_eq_of_prepare_ok K t0 bufs hE] at h
    simp at h

theorem dispatchCall_multi_zc {T : Type} {m : CfMeta}
    {K : CfKernels T m.nvars m.nouts m.nparams m.simd_size} {t0 : T} {bufs : CfBufs T}
    {P : Prepared T} (hm : P.multi = true) (hz : P.zc = true) :
    dispatchCall m K t0 bufs P =
      ({ P.outp with data := zcMultiOut m K t0 P.inputs P.pars P.time P.inputs.shape1 P.outp.data },
       zcMultiTrace m P.inputs.shape1, bufs) := by
  unfold dispatchCall
  rw [if_pos hm, if_pos hz]

theorem dispatchCall_multi_buf {T : Type} {m : CfMeta}
    {K : CfKernels T m.nvars m.nouts m.nparams m.simd_size} {t0 : T} {bufs : CfBufs T}
    {P : Prepared T} (hm : P.multi = true) (hz : P.zc = false) :
    dispatchCall m K t0 bufs P =
      (let N := P.inputs.shape1
       let W := m.simd_size
       let B := N / W
       let st2 := (List.range' (B * W) (N - B * W)).foldl (remStep m K t0 P.inputs P.pars P.time N)
         ((List.range B).foldl (blockStep m K t0 P.inputs P.pars P.time N) (P.outp.data, bufs))
       ({ P.outp with data := st2.1 },
        (List.range B).map (fun _ => KInv.batchB)
          ++ (List.range' (B * W) (N - B * W)).map (fun _ => KInv.scalB),
        st2.2)) := by
  unfold dispatchCall
  rw [if_pos hm, if_neg (by simp [hz])]

theorem dispatchCall_single_zc {T : Type} {m : CfMeta}
    {K : CfKernels T m.nvars m.nouts m.nparams m.simd_size} {t0 : T} {bufs : CfBufs T}
    {P : Prepared T} (hm : P.multi = false) (hz : P.zc = true) :
    dispatchCall m K t0 bufs P =
      ({ P.outp with data := zcSingleData m K t0 P.inputs P.pars P.time P.outp.data },
       [KInv.scalZ true P.pars.isSome P.time.isSome], bufs) := by
  unfold dispatchCall
  rw [if_neg (by simp [hm]), if_pos hz]

theorem dispatchCall_single_buf {T : Type} {m : CfMeta}
    {K : CfKernels T m.nvars m.nouts m.nparams m.simd_size} {t0 : T} {bufs : CfBufs T}
    {P : Prepared T} (hm : P.multi = false) (hz : P.zc = false) :
    dispatchCall m K t0 bufs P =
      (let r := bufferedSingle m K t0 P.inputs P.pars P.time P.outp.data bufs
       ({ P.outp with data := r.1 }, [KInv.scalB], r.2)) := by
  unfold dispatchCall
  rw [if_neg (by simp [hm]), if_neg (by simp [hz])]

/-- C1.  For every valid batch evaluation on the zero-copy path with all
four roles present (`nvars > 0`, `nparams > 0`, time-dependent), point
count `N = inputs.shape(1)` and SIMD width `W`, the dispatcher invokes the
strided batch kernel exactly `N / W` times, the `k`-th invocation receiving
the output/input/parameter/time pointers offset by `k·W` elements and
stride `N`, and then invokes the strided scalar kernel exactly once per
remainder point `k ∈ [N/W·W, N)`, with the pointers offset by `k` and the
same stride `N`. -/
theorem C1_zero_copy_batch_trace {T : Type} (m : CfMeta) (R : Option (RealOps T))
    (K : CfKernels T m.nvars m.nouts m.nparams m.simd_size) (t0 : T) (bufs : CfBufs T)
    (inputs0 : NpArr T) (outputs0 pars0 : Option (NpArr T)) (time0 : Option (TimeArg T))
    (hv : ValidPre m R inputs0 outputs0 pars0 time0)
    (hmulti : inputs0.ndim = 2)
    (hzc : (mkPrepared m R t0 inputs0 outputs0 pars0 time0).zc = true)
    (hnv : 0 < m.nvars) (hnp : 0 < m.nparams) (htd : m.is_time_dependent = true) :
    (cfuncCall m R K t0 bufs inputs0 outputs0 pars0 time0).trace
      = ((List.range (inputs0.shape1 / m.simd_size)).map fun k =>
          KInv.batchS (k * m.simd_size) (some (k * m.simd_size)) (some (k * m.simd_size))
            (some (k * m.simd_size)) inputs0.shape1)
        ++ ((List.range' (inputs0.shape1 / m.simd_size * m.simd_size)
              (inputs0.shape1 - inputs0.shape1 / m.simd_size * m.simd_size)).map fun k =>
            KInv.scalS k (some k) (some k) (some k) inputs0.shape1) := by
  have hP := @prepare_valid T m R t0 inputs0 outputs0 pars0 time0 hv
  rw [cfuncCall_eq_of_prepare_ok K t0 bufs hP]
  have hm : (mkPrepared m R t0 inputs0 outputs0 pars0 time0).multi = true := by
    simp [hmulti]
  rw [dispatchCall_multi_zc hm hzc]
  simp only [mkPrepared_inputs, shape1_coerce, zcMultiTrace, if_pos hnv, if_pos hnp, if_pos htd]

/-- C7.  In the batch zero-copy path, for each of the input, parameter and
time roles, the kernel receives a null pointer — with no pointer arithmetic
performed on that role's base pointer — whenever the role's declared count
is zero (`nvars = 0` for inputs, `nparams = 0` for parameters) or the
function is not time-dependent; otherwise it receives the base pointer
offset by the block/point position. -/
theorem C7_null_pointer_roles {T : Type} (m : CfMeta) (R : Option (RealOps T))
    (K : CfKernels T m.nvars m.nouts m.nparams m.simd_size) (t0 : T) (bufs : CfBufs T)
    (inputs0 : NpArr T) (outputs0 pars0 : Option (NpArr T)) (time0 : Option (TimeArg T))
    (hv : ValidPre m R inputs0 outputs0 pars0 time0)
    (hmulti : inputs0.ndim = 2)
    (hzc : (mkPrepared m R t0 inputs0 outputs0 pars0 time0).zc = true) :
    (cfuncCall m R K t0 bufs inputs0 outputs0 pars0 time0).trace
      = ((List.range (inputs0.shape1 / m.simd_size)).map fun k =>
          KInv.batchS (k * m.simd_size)
            (if 0 < m.nvars then some (k * m.simd_size) else none)
            (if 0 < m.nparams then some (k * m.simd_size) else none)
            (if m.is_time_dependent = true then some (k * m.simd_size) else none)
            inputs0.shape1)
        ++ ((List.range' (inputs0.shape1 / m.simd_size * m.simd_size)
              (inputs0.shape1 - inputs0.shape1 / m.simd_size * m.simd_size)).map fun k =>
            KInv.scalS k
              (if 0 < m.nvars then some k else none)
              (if 0 < m.nparams then some k else none)
              (if m.is_time_dependent = true then some k else none)
              inputs0.shape1) := by
  have hP := @prepare_valid T m R t0 inputs0 outputs0 pars0 time0 hv
  rw [cfuncCall_eq_of_prepare_ok K t0 bufs hP]
  have hm : (mkPrepared m R t0 inputs0 outputs0 pars0 time0).multi = true := by
    simp [hmulti]
  rw [dispatchCall_multi_zc hm hzc]
  simp only [mkPrepared_inputs, shape1_coerce, zcMultiTrace]

/-- C10.  A batch call with zero evaluation points (inputs of shape
`(nvars, 0)`, the other supplied buffers' second dimension also 0, outputs
auto-allocated) is accepted, invokes no kernel at all, and returns an
outputs array of shape `(nouts, 0)`. -/
theorem C10_zero_point_batch {T : Type} (m : CfMeta) (R : Option (RealOps T))
    (K : CfKernels T m.nvars m.nouts m.nparams m.simd_size) (t0 : T) (bufs : CfBufs T)
    (inputs0 : NpArr T) (pars0 : Option (NpArr T)) (time0 : Option (TimeArg T))
    (hv : ValidPre m R inputs0 none pars0 time0)
    (hmulti : inputs0.ndim = 2) (hN0 : inputs0.shape1 = 0) :
    ∃ r, (cfuncCall m R K t0 bufs inputs0 none pars0 time0).res = .ok r
      ∧ r.shape = [m.nouts, 0]
      ∧ (cfuncCall m R K t0 bufs inputs0 none pars0 time0).trace = [] := by
  have hP := @prepare_valid T m R t0 inputs0 none pars0 time0 hv
  rw [cfuncCall_eq_of_prepare_ok K t0 bufs hP]
  have hm : (mkPrepared m R t0 inputs0 none pars0 time0).multi = true := by
    simp [hmulti]
  have hshape : (mkPrepared m R t0 inputs0 none pars0 time0).outp.shape = [m.nouts, 0] := by
    rw [mkPrepared_outp_none]
    cases R with
    | none => simp [allocOut, hmulti, hN0]
    | some ro => simp [ensureArr, allocOut, hmulti, hN0]
  have hN : (mkPrepared m R t0 inputs0 none pars0 time0).inputs.shape1 = 0 := by
    simp [hN0]
  cases hzc : (mkPrepared m R t0 inputs0 none pars0 time0).zc with
  | true =>
    rw [dispatchCall_multi_zc hm hzc]
    refine ⟨_, rfl, by simpa using hshape, ?_⟩
    simp [zcMultiTrace, hN, hN0, Nat.zero_div]
  | false =>
    rw [dispatchCall_multi_buf hm hzc]
    refine ⟨_, rfl, by simpa [hN] using hshape, ?_⟩
    simp [hN, hN0, Nat.zero_div]

/-- Concrete metadata: 2 variables, 1 output, 1 parameter, time-dependent,
SIMD width 2, for the witness evaluations. -/
def mC1 : CfMeta :=
  { nvars := 2, nouts := 1, nparams := 1, is_time_dependent := true,
    simd_size := 2, dt := 0, prec := 0 }

def kC1 : CfKernels Int 2 1 1 2 :=
  { fscal := fun vi vp t _ => vi 0 + vi 1 + vp 0 + t,
    fbatch := fun vi vp t _ j => vi 0 j + vi 1 j + vp 0 j + t j }

def inC1 : NpArr Int :=
  { shape := [2, 5], data := [1, 2, 3, 4, 5, 10, 20, 30, 40, 50],
    writeable := true, dt := 0, carray := true, region := some (0, 80) }

def parsC1 : NpArr Int :=
  { shape := [1, 5], data := [100, 100, 100, 100, 100],
    writeable := true, dt := 0, carray := true, region := some (100, 40) }

def timeC1 : NpArr Int :=
  { shape := [5], data := [7, 7, 7, 7, 7],
    writeable := true, dt := 0, carray := true, region := some (200, 40) }

theorem validC1 : ValidPre mC1 (none : Option (RealOps Int)) inC1 none (some parsC1)
    (some (TimeArg.iter timeC1)) := by
  refine ⟨?_, ?_, ?_, ?_, ?_, ?_, ?_, ?_, ?_⟩
  · intro _; simp
  · intro _; simp
  · right; decide
  · decide
  · intro _; decide
  · intro o h; exact Option.noConfusion h
  · intro ro h; exact Option.noConfusion h
  · intro pa h
    injection h with h'
    subst h'
    exact ⟨by decide, by decide, fun _ => by decide, fun ro hro => Option.noConfusion hro⟩
  · intro t h
    injection h with h'
    subst h'
    exact ⟨by decide, fun _ => by decide, fun ro hro => Option.noConfusion hro⟩

theorem C1_zero_copy_batch_trace_witness :
    (cfuncCall mC1 (none : Option (RealOps Int)) kC1 0 (initCfBufs mC1 none 0) inC1 none
      (some parsC1) (some (TimeArg.iter timeC1))).trace
      = [KInv.batchS 0 (some 0) (some 0) (some 0) 5,
         KInv.batchS 2 (some 2) (some 2) (some 2) 5,
         KInv.scalS 4 (some 4) (some 4) (some 4) 5] := by
  rw [C1_zero_copy_batch_trace mC1 none kC1 0 (initCfBufs mC1 none 0) inC1 none (some parsC1)
    (some (TimeArg.iter timeC1)) validC1 (by decide) (by decide) (by decide) (by decide)
    (by decide)]
  decide

/-- Concrete metadata: 2 variables, 1 output, no parameters, not
time-dependent, SIMD width 2. -/
def mC7 : CfMeta :=
  { nvars := 2, nouts := 1, nparams := 0, is_time_dependent := false,
    simd_size := 2, dt := 0, prec := 0 }

def kC7 : CfKernels Int 2 1 0 2 :=
  { fscal := fun vi _ _ _ => vi 0 + vi 1,
    fbatch := fun vi _ _ _ j => vi 0 j + vi 1 j }

def inC7 : NpArr Int :=
  { shape := [2, 3], data := [1, 2, 3, 10, 20, 30],
    writeable := true, dt := 0, carray := true, region := some (0, 48) }

theorem validC7 : ValidPre mC7 (none : Option (RealOps Int)) inC7 none none none := by
  refine ⟨?_, ?_, ?_, ?_, ?_, ?_, ?_, ?_, ?_⟩
  · intro h; exact absurd h (by decide)
  · intro h; exact absurd h (by decide)
  · right; decide
  · decide
  · intro h; exact absurd h (by decide)
  · intro o h; exact Option.noConfusion h
  · intro ro h; exact Option.noConfusion h
  · intro pa h; exact Option.noConfusion h
  · intro t h; exact Option.noConfusion h

theorem C7_null_pointer_roles_witness :
    (cfuncCall mC7 (none : Option (RealOps Int)) kC7 0 (initCfBufs mC7 none 0) inC7 none
      none none).trace
      = [KInv.batchS 0 (some 0) none none 3, KInv.scalS 2 (some 2) none none 3] := by
  rw [C7_null_pointer_roles mC7 none kC7 0 (initCfBufs mC7 none 0) inC7 none none none
    validC7 (by decide) (by decide)]
  decide

def inC10 : NpArr Int :=
  { shape := [2, 0], data := [], writeable := true, dt := 0, carray := true,
    region := some (0, 0) }

theorem validC10 : ValidPre mC7 (none : Option (RealOps Int)) inC10 none none none := by
  refine ⟨?_, ?_, ?_, ?_, ?_, ?_, ?_, ?_, ?_⟩
  · intro h; exact absurd h (by decide)
  · intro h; exact absurd h (by decide)
  · right; decide
  · decide
  · intro h; exact absurd h (by decide)
  · intro o h; exact Option.noConfusion h
  · intro ro h; exact Option.noConfusion h
  · intro pa h; exact Option.noConfusion h
  · intro t h; exact Option.noConfusion h

theorem C10_zero_point_batch_witness :
    ∃ r, (cfuncCall mC7 (none : Option (RealOps Int)) kC7 0 (initCfBufs mC7 none 0) inC10 none
        none none).res = .ok r
      ∧ r.shape = [mC7.nouts, 0]
      ∧ (cfuncCall mC7 (none : Option (RealOps Int)) kC7 0 (initCfBufs mC7 none 0) inC10 none
          none none).trace = [] :=
  C10_zero_point_batch mC7 none kC7 0 (initCfBufs mC7 none 0) inC10 none none validC10
    (by decide) (by decide)

/-- C3 (amended).  The zero-copy path is taken only if every buffer in use
after dtype coercion — the supplied buffer itself when its dtype already
matches the kernel's, otherwise the freshly converted copy — is C-style
contiguous and no pair of the in-use buffers may share any memory region;
whenever either condition fails for the in-use buffers, the call is
executed on the buffered path (only scratch-buffer kernel invocations). -/
theorem C3_zero_copy_gate {T : Type} (m : CfMeta) (R : Option (RealOps T))
    (K : CfKernels T m.nvars m.nouts m.nparams m.simd_size) (t0 : T) (bufs : CfBufs T)
    (inputs0 : NpArr T) (outputs0 pars0 : Option (NpArr T)) (time0 : Option (TimeArg T))
    (P : Prepared T)
    (h : prepareCall m R t0 inputs0 outputs0 pars0 time0 = .ok P) :
    P.zc = (P.inputs.carray && P.outp.carray
        && (match P.pars with | some pa => pa.carray | none => true)
        && (match P.time with | some ta => ta.carray | none => true)
        && !anyOverlap (([some P.inputs, some P.outp, P.pars, P.time]
              : List (Option (NpArr T))).filterMap id))
      ∧ (P.zc = false →
          ∀ inv ∈ (cfuncCall m R K t0 bufs inputs0 outputs0 pars0 time0).trace,
            inv = KInv.scalB ∨ inv = KInv.batchB) := by
  obtain ⟨hP, -, -, -⟩ := prepare_ok_facts h
  subst hP
  constructor
  · rfl
  · intro hzc inv hinv
    rw [cfuncCall_eq_of_prepare_ok K t0 bufs h] at hinv
    simp only at hinv
    cases hm : (mkPrepared m R t0 inputs0 outputs0 pars0 time0).multi with
    | true =>
      rw [dispatchCall_multi_buf hm hzc] at hinv
      simp only at hinv
      rcases List.mem_append.1 hinv with hx | hx
      · right; rcases List.mem_map.1 hx with ⟨_, _, hk⟩; exact hk.symm
      · left; rcases List.mem_map.1 hx with ⟨_, _, hk⟩; exact hk.symm
    | false =>
      rw [dispatchCall_single_buf hm hzc] at hinv
      simp only at hinv
      left
      simpa using hinv

def mC3 : CfMeta :=
  { nvars := 2, nouts := 1, nparams := 1, is_time_dependent := false,
    simd_size := 1, dt := 0, prec := 0 }

def kC3 : CfKernels Int 2 1 1 1 :=
  { fscal := fun vi vp _ _ => vi 0 + vi 1 + vp 0,
    fbatch := fun vi vp _ _ j => vi 0 j + vi 1 j + vp 0 j }

/-- Caller-supplied inputs with a dtype (1) different from the kernel's (0),
C-contiguous, occupying bytes [0, 80). -/
def inC3 : NpArr Int :=
  { shape := [2], data := [3, 4], writeable := true, dt := 1, carray := true,
    region := some (0, 80) }

/-- Caller-supplied parameters with the kernel's dtype, C-contiguous,
occupying bytes [40, 80) — overlapping the inputs buffer. -/
def parsC3 : NpArr Int :=
  { shape := [1], data := [100], writeable := true, dt := 0, carray := true,
    region := some (40, 40) }

/-- C3 counterexample: a pair of the caller-supplied buffers (inputs and
parameters) may share memory, yet the zero-copy path is taken (the trace is
a direct scalar-kernel call on the caller buffers, not a scratch-buffer
call), because the dtype-mismatched inputs buffer was replaced by a fresh
converted copy before the aliasing check. -/
theorem C3_counterexample :
    overlapB inC3 parsC3 = true
      ∧ (cfuncCall mC3 (none : Option (RealOps Int)) kC3 0 (initCfBufs mC3 none 0) inC3 none
          (some parsC3) none).trace = [KInv.scalZ true true false]
      ∧ (cfuncCall mC3 (none : Option (RealOps Int)) kC3 0 (initCfBufs mC3 none 0) inC3 none
          (some parsC3) none).res
        = .ok { shape := [1], data := [107], writeable := true, dt := 0, carray := true,
                region := none } := by
  decide

def PC3w : Prepared Int := mkPrepared mC7 (none : Option (RealOps Int)) 0 inC7 none none none

theorem C3_zero_copy_gate_witness :
    PC3w.zc = (PC3w.inputs.carray && PC3w.outp.carray
        && (match PC3w.pars with | some pa => pa.carray | none => true)
        && (match PC3w.time with | some ta => ta.carray | none => true)
        && !anyOverlap (([some PC3w.inputs, some PC3w.outp, PC3w.pars, PC3w.time]
              : List (Option (NpArr Int))).filterMap id))
      ∧ (PC3w.zc = false →
          ∀ inv ∈ (cfuncCall mC7 (none : Option (RealOps Int)) kC7 0 (initCfBufs mC7 none 0)
              inC7 none none none).trace,
            inv = KInv.scalB ∨ inv = KInv.batchB) :=
  C3_zero_copy_gate mC7 none kC7 0 (initCfBufs mC7 none 0) inC7 none none none PC3w (by decide)

/-- C4 (amended).  If any validation check fails, the error is raised
before any kernel invocation (empty trace), the scratch buffers are
untouched, and every caller-supplied buffer is untouched except that, for
the arbitrary-precision element type, a caller-supplied outputs array of
matching dtype may already have been precision-normalized in place
(`pyreal_ensure_array`), because the parameter and time validation runs
after the normalization point. -/
theorem C4_error_before_kernel {T : Type} (m : CfMeta) (R : Option (RealOps T))
    (K : CfKernels T m.nvars m.nouts m.nparams m.simd_size) (t0 : T) (bufs : CfBufs T)
    (inputs0 : NpArr T) (outputs0 pars0 : Option (NpArr T)) (time0 : Option (TimeArg T))
    (e : CfErr)
    (h : (cfuncCall m R K t0 bufs inputs0 outputs0 pars0 time0).res = .error e) :
    (cfuncCall m R K t0 bufs inputs0 outputs0 pars0 time0).trace = []
      ∧ (cfuncCall m R K t0 bufs inputs0 outputs0 pars0 time0).bufs = bufs
      ∧ ((cfuncCall m R K t0 bufs inputs0 outputs0 pars0 time0).callerOutputs = outputs0
          ∨ (cfuncCall m R K t0 bufs inputs0 outputs0 pars0 time0).callerOutputs
              = outputs0.map (ensureEffect m R)) := by
  obtain ⟨co, hpre, hco, htr, hbufs⟩ := cfuncCall_of_error h
  refine ⟨htr, hbufs, ?_⟩
  rw [hco]
  exact prepare_error_payload hpre

/-- The arbitrary-precision element type for the `mppp::real`
instantiation: a value tagged with the precision it was constructed at
(the representable value itself is carried unchanged by `set_prec` in this
model, which matches `set_prec` on exactly representable values). -/
structure RVal where
  prec : Nat
  val : Int
deriving DecidableEq, Repr

/-- The `RealOps` instance for `RVal`. -/
def rOps : RealOps RVal :=
  { slotPrec := RVal.prec, setPrec := fun p x => { prec := p, val := x.val } }

def mC4 : CfMeta :=
  { nvars := 1, nouts := 1, nparams := 1, is_time_dependent := false,
    simd_size := 1, dt := 5, prec := 53 }

def kC4 : CfKernels RVal 1 1 1 1 :=
  { fscal := fun vi _ _ _ => vi 0,
    fbatch := fun vi _ _ _ j => vi 0 j }

def inC4 : NpArr RVal :=
  { shape := [1], data := [{ prec := 53, val := 3 }], writeable := true, dt := 5,
    carray := true, region := some (0, 16) }

/-- Caller-supplied outputs of matching dtype whose slot is at precision 24,
not the working precision 53. -/
def outC4 : NpArr RVal :=
  { shape := [1], data := [{ prec := 24, val := 9 }], writeable := true, dt := 5,
    carray := true, region := some (100, 16) }

/-- Parameter array with the wrong first-dimension size (2 instead of 1). -/
def parsC4bad : NpArr RVal :=
  { shape := [2], data := [{ prec := 53, val := 1 }, { prec := 53, val := 1 }],
    writeable := true, dt := 5, carray := true, region := some (200, 32) }

/-- C4 counterexample: for the arbitrary-precision type, a call whose
parameter array has the wrong first-dimension size raises the size
mismatch error, yet at that moment the caller-supplied outputs array has
already been written to: its slot was precision-normalized in place from
precision 24 to the working precision 53 before the parameter checks ran. -/
theorem C4_counterexample :
    (cfuncCall mC4 (some rOps) kC4 { prec := 53, val := 0 }
        (initCfBufs mC4 (some rOps) { prec := 53, val := 0 }) inC4 (some outC4)
        (some parsC4bad) none).res = .error CfErr.badParsSize
      ∧ (cfuncCall mC4 (some rOps) kC4 { prec := 53, val := 0 }
          (initCfBufs mC4 (some rOps) { prec := 53, val := 0 }) inC4 (some outC4)
          (some parsC4bad) none).callerOutputs ≠ some outC4
      ∧ (cfuncCall mC4 (some rOps) kC4 { prec := 53, val := 0 }
          (initCfBufs mC4 (some rOps) { prec := 53, val := 0 }) inC4 (some outC4)
          (some parsC4bad) none).callerOutputs
        = some { outC4 with data := [{ prec := 53, val := 9 }] } := by
  decide

def inC4bad : NpArr Int :=
  { shape := [3], data := [1, 2, 3], writeable := true, dt := 0, carray := true,
    region := some (0, 48) }

theorem C4_error_before_kernel_witness :
    (cfuncCall mC7 (none : Option (RealOps Int)) kC7 0 (initCfBufs mC7 none 0) inC4bad none
        none none).trace = []
      ∧ (cfuncCall mC7 (none : Option (RealOps Int)) kC7 0 (initCfBufs mC7 none 0) inC4bad none
          none none).bufs = initCfBufs mC7 none 0
      ∧ ((cfuncCall mC7 (none : Option (RealOps Int)) kC7 0 (initCfBufs mC7 none 0) inC4bad none
            none none).callerOutputs = none
          ∨ (cfuncCall mC7 (none : Option (RealOps Int)) kC7 0 (initCfBufs mC7 none 0) inC4bad
              none none none).callerOutputs
              = Option.map (ensureEffect mC7 (none : Option (RealOps Int))) none) :=
  C4_error_before_kernel mC7 none kC7 0 (initCfBufs mC7 none 0) inC4bad none none none
    CfErr.badInputsSize (by decide)

/-- C5 (amended).  In batch mode a scalar time value is converted on the
fly into a one-element time array, so validation fails with the batch-size
mismatch error exactly when the point count `N` differs from 1; a batch
call with exactly one evaluation point accepts a scalar time value (see the
counterexample). -/
theorem C5_scalar_time_in_batch {T : Type} (m : CfMeta)
    (K : CfKernels T m.nvars m.nouts m.nparams m.simd_size) (t0 : T) (bufs : CfBufs T)
    (inputs0 : NpArr T) (v : T)
    (hnp : m.nparams = 0)
    (hdim : inputs0.ndim = 2)
    (hins : inputs0.shape0 = m.nvars)
    (hN : ¬ inputs0.shape1 = 1) :
    (cfuncCall m (none : Option (RealOps T)) K t0 bufs inputs0 none none
        (some (TimeArg.scalar v))).res = .error CfErr.badTimeBatch := by
  have hprep : prepareCall m (none : Option (RealOps T)) t0 inputs0 none none
      (some (TimeArg.scalar v)) = .error (CfErr.badTimeBatch, none) := by
    have c1 : ¬(0 < m.nparams
        ∧ (Option.map (coerceArr m.dt) (none : Option (NpArr T))).isNone = true) := by
      simp [hnp]
    have c2 : ¬(m.is_time_dependent = true
        ∧ (Option.map (coerceArr m.dt)
            (Option.map (timeToArr m.dt) (some (TimeArg.scalar v)))).isNone = true) := by
      simp
    have c3 : ¬¬((coerceArr m.dt inputs0).ndim = 1 ∨ (coerceArr m.dt inputs0).ndim = 2) := by
      simp [ndim_coerce, hdim]
    have c4 : ¬¬((coerceArr m.dt inputs0).shape0 = m.nvars) := by
      simp [shape0_coerce, hins]
    have c5 : ¬(timeIsIter (some (TimeArg.scalar v)) = true
        ∧ ¬(coerceArr m.dt inputs0).ndim = 2) := by
      simp [timeIsIter]
    simp only [prepareCall, if_neg c1, if_neg c2, if_neg c3, if_neg c4, if_neg c5]
    have htc : timeChecks m (none : Option (RealOps T)) (coerceArr m.dt inputs0).shape1
        (decide ((coerceArr m.dt inputs0).ndim = 2))
        (Option.map (coerceArr m.dt) (Option.map (timeToArr m.dt) (some (TimeArg.scalar v))))
        = some CfErr.badTimeBatch := by
      have hco : coerceArr m.dt (timeToArr m.dt (TimeArg.scalar v))
          = timeToArr m.dt (TimeArg.scalar v) := by
        simp [coerceArr, timeToArr]
      simp only [Option.map_some', timeChecks, hco]
      rw [if_neg (by simp [timeToArr, NpArr.ndim]), if_pos]
      refine ⟨by simp [hdim], ?_⟩
      simp only [timeToArr, NpArr.shape0, shape1_coerce]
      intro heq
      exact hN (by simpa using heq.symm)
    simp only [prepareTail, Option.map_none', parsChecks, htc]
  rw [cfuncCall_eq_of_prepare_error K t0 bufs hprep]

def mC5 : CfMeta :=
  { nvars := 1, nouts := 1, nparams := 0, is_time_dependent := true,
    simd_size := 1, dt := 0, prec := 0 }

def kC5 : CfKernels Int 1 1 0 1 :=
  { fscal := fun vi _ t _ => vi 0 + t,
    fbatch := fun vi _ t _ j => vi 0 j + t j }

def inC5 : NpArr Int :=
  { shape := [1, 1], data := [42], writeable := true, dt := 0, carray := true,
    region := some (0, 8) }

/-- C5 counterexample: a batch-mode call (2-dimensional inputs, one
evaluation point) with a scalar (non-iterable) time value does NOT fail
validation — it succeeds and evaluates, because the scalar is converted to
a one-element time array which passes the size check when `N = 1`. -/
theorem C5_counterexample :
    (cfuncCall mC5 (none : Option (RealOps Int)) kC5 0 (initCfBufs mC5 none 0) inC5 none none
        (some (TimeArg.scalar 7))).res
      = .ok { shape := [1, 1], data := [49], writeable := true, dt := 0, carray := true,
              region := none } := by
  decide

def inC5w : NpArr Int :=
  { shape := [1, 3], data := [1, 2, 3], writeable := true, dt := 0, carray := true,
    region := some (0, 24) }

theorem C5_scalar_time_in_batch_witness :
    (cfuncCall mC5 (none : Option (RealOps Int)) kC5 0 (initCfBufs mC5 none 0) inC5w none none
        (some (TimeArg.scalar 7))).res = .error CfErr.badTimeBatch :=
  C5_scalar_time_in_batch mC5 kC5 0 (initCfBufs mC5 none 0) inC5w 7 (by decide) (by decide)
    (by decide) (by decide)

/-- C6 (amended).  When the supplied outputs buffer has the kernel's dtype
(so no fresh conversion happens): if it is not writeable the call raises
the non-writable-output error (assuming the checks that run earlier —
missing parameters/time, inputs dimensionality and size, scalar-time —
pass), and in every non-error case the caller-supplied outputs buffer
itself is the returned array, reused in place with its prior contents
overwritten.  With a mismatched dtype a fresh converted array is used
instead and no writability error is raised (see the counterexample). -/
theorem C6_nonwritable_output {T : Type} (m : CfMeta) (R : Option (RealOps T))
    (K : CfKernels T m.nvars m.nouts m.nparams m.simd_size) (t0 : T) (bufs : CfBufs T)
    (inputs0 : NpArr T) (pars0 : Option (NpArr T)) (time0 : Option (TimeArg T)) (o : NpArr T)
    (hdt : o.dt = m.dt)
    (hnp : ¬(0 < m.nparams ∧ pars0.isNone = true))
    (htd : ¬(m.is_time_dependent = true ∧ time0.isNone = true))
    (hdm : inputs0.ndim = 1 ∨ inputs0.ndim = 2)
    (hins : inputs0.shape0 = m.nvars)
    (hsct : ¬(timeIsIter time0 = true ∧ ¬ inputs0.ndim = 2)) :
    (o.writeable = false →
        (cfuncCall m R K t0 bufs inputs0 (some o) pars0 time0).res
          = .error CfErr.outputNotWritable)
      ∧ (∀ r, (cfuncCall m R K t0 bufs inputs0 (some o) pars0 time0).res = .ok r →
          (cfuncCall m R K t0 bufs inputs0 (some o) pars0 time0).callerOutputs = some r) := by
  have c1 : ¬(0 < m.nparams ∧ (Option.map (coerceArr m.dt) pars0).isNone = true) := by
    rcases pars0 with _ | pa
    · simpa using hnp
    · simp
  have c2 : ¬(m.is_time_dependent = true
      ∧ (Option.map (coerceArr m.dt) (Option.map (timeToArr m.dt) time0)).isNone = true) := by
    rcases time0 with _ | tv
    · simpa using htd
    · simp
  have c3 : ¬¬((coerceArr m.dt inputs0).ndim = 1 ∨ (coerceArr m.dt inputs0).ndim = 2) := by
    simp only [ndim_coerce]
    exact not_not_intro hdm
  have c4 : ¬¬((coerceArr m.dt inputs0).shape0 = m.nvars) := by
    simp only [shape0_coerce]
    exact not_not_intro hins
  have c5 : ¬(timeIsIter time0 = true ∧ ¬(coerceArr m.dt inputs0).ndim = 2) := by
    rintro ⟨a, b⟩
    exact hsct ⟨a, by simpa using b⟩
  constructor
  · intro hw
    have hoc : outChecks m.nouts (coerceArr m.dt inputs0).ndim (coerceArr m.dt inputs0).shape1
        (decide ((coerceArr m.dt inputs0).ndim = 2)) (coerceArr m.dt o)
        = some CfErr.outputNotWritable := by
      unfold outChecks
      rw [if_pos]
      simp [coerceArr, hdt, hw]
    have hprep : prepareCall m R t0 inputs0 (some o) pars0 time0
        = .error (CfErr.outputNotWritable, some o) := by
      simp only [prepareCall, if_neg c1, if_neg c2, if_neg c3, if_neg c4, if_neg c5, hoc]
    rw [cfuncCall_eq_of_prepare_error K t0 bufs hprep]
  · intro r hr
    obtain ⟨P, hpre, hrd, -, -⟩ := cfuncCall_of_ok hr
    obtain ⟨hP, -, -, -⟩ := prepare_ok_facts hpre
    rw [cfuncCall_eq_of_prepare_ok K t0 bufs hpre]
    subst hP
    simp [hdt, hrd]

def inC6 : NpArr Int :=
  { shape := [2], data := [3, 4], writeable := true, dt := 0, carray := true,
    region := some (0, 32) }

/-- A caller-supplied outputs buffer that cannot be written to, with a
dtype (7) different from the kernel's (0). -/
def outC6bad : NpArr Int :=
  { shape := [1], data := [9], writeable := false, dt := 7, carray := true,
    region := some (100, 8) }

/-- C6 counterexample: a call supplying a non-writable outputs buffer does
NOT raise the non-writable-output error when the buffer's dtype differs
from the kernel's: the `astype` conversion produces a fresh writable array
first, the call succeeds, and the fresh array is returned. -/
theorem C6_counterexample :
    outC6bad.writeable = false
      ∧ (cfuncCall mC7 (none : Option (RealOps Int)) kC7 0 (initCfBufs mC7 none 0) inC6
          (some outC6bad) none none).res
        = .ok { shape := [1], data := [7], writeable := true, dt := 0, carray := true,
                region := none } := by
  decide

def outC6w : NpArr Int :=
  { shape := [1], data := [9], writeable := false, dt := 0, carray := true,
    region := some (100, 8) }

theorem C6_nonwritable_output_witness :
    (outC6w.writeable = false →
        (cfuncCall mC7 (none : Option (RealOps Int)) kC7 0 (initCfBufs mC7 none 0) inC6
          (some outC6w) none none).res = .error CfErr.outputNotWritable)
      ∧ (∀ r, (cfuncCall mC7 (none : Option (RealOps Int)) kC7 0 (initCfBufs mC7 none 0) inC6
            (some outC6w) none none).res = .ok r →
          (cfuncCall mC7 (none : Option (RealOps Int)) kC7 0 (initCfBufs mC7 none 0) inC6
            (some outC6w) none none).callerOutputs = some r) :=
  C6_nonwritable_output mC7 none kC7 0 (initCfBufs mC7 none 0) inC6 none none outC6w
    (by decide) (by decide) (by decide) (by decide) (by decide) (by decide)

theorem kind_of_err {A B C : Type} {x : A × B} {e : A} {co : B}
    (h : (Except.error x : Except (A × B) C) = .error (e, co)) : e = x.1 := by
  have hx := Except.error.inj h
  rw [hx]

theorem outChecks_nw {T : Type} {nouts nd N : Nat} {mult : Bool} {oc : NpArr T}
    (h : outChecks nouts nd N mult oc = some CfErr.outputNotWritable) :
    oc.writeable = false := by
  unfold outChecks at h
  split at h
  · assumption
  · split at h
    · simp at h
    · split at h
      · simp at h
      · split at h
        · simp at h
        · simp at h

theorem parsChecks_some_kind {T : Type} {m : CfMeta} {R : Option (RealOps T)} {nd N : Nat}
    {mult : Bool} {pars : Option (NpArr T)} {e : CfErr}
    (h : parsChecks m R nd N mult pars = some e) :
    e = .badParsDim ∨ e = .badParsSize ∨ e = .badParsBatch ∨ e = .precPars := by
  rcases pars with _ | pa
  · exact Option.noConfusion h
  · simp only [parsChecks] at h
    rcases R with _ | ro
    all_goals repeat' split at h
    all_goals first
      | exact Option.noConfusion h
      | exact Or.inl (Option.some.inj h).symm
      | exact Or.inr (Or.inl (Option.some.inj h).symm)
      | exact Or.inr (Or.inr (Or.inl (Option.some.inj h).symm))
      | exact Or.inr (Or.inr (Or.inr (Option.some.inj h).symm))

theorem timeChecks_some_kind {T : Type} {m : CfMeta} {R : Option (RealOps T)} {N : Nat}
    {mult : Bool} {time : Option (NpArr T)} {e : CfErr}
    (h : timeChecks m R N mult time = some e) :
    e = .badTimeDim ∨ e = .badTimeBatch ∨ e = .precTime := by
  rcases time with _ | ta
  · exact Option.noConfusion h
  · simp only [timeChecks] at h
    rcases R with _ | ro
    all_goals repeat' split at h
    all_goals first
      | exact Option.noConfusion h
      | exact Or.inl (Option.some.inj h).symm
      | exact Or.inr (Or.inl (Option.some.inj h).symm)
      | exact Or.inr (Or.inr (Option.some.inj h).symm)

theorem prepareTail_error_ne_nw {T : Type} {m : CfMeta} {R : Option (RealOps T)} {t0 : T}
    {inputs0 : NpArr T} {outputs0 pars0 : Option (NpArr T)} {time0 : Option (TimeArg T)}
    {e : CfErr} {co : Option (NpArr T)}
    (h : prepareTail m R t0 inputs0 outputs0 pars0 time0 = .error (e, co)) :
    ¬ e = CfErr.outputNotWritable := by
  simp only [prepareTail] at h
  split at h
  · rename_i e1 he
    rw [kind_of_err h]
    simp only
    rcases R with _ | ro
    · exact Option.noConfusion he
    · repeat' split at he
      all_goals first
        | exact Option.noConfusion he
        | (rw [← Option.some.inj he]; simp)
  · split at h
    · rename_i e1 he
      rw [kind_of_err h]
      simp only
      rcases parsChecks_some_kind he with h1 | h1 | h1 | h1 <;> subst h1 <;> simp
    · split at h
      · rename_i e1 he
        rw [kind_of_err h]
        simp only
        rcases timeChecks_some_kind he with h1 | h1 | h1 <;> subst h1 <;> simp
      · simp at h

theorem prepare_error_ne_nw {T : Type} {m : CfMeta} {R : Option (RealOps T)} {t0 : T}
    {inputs0 : NpArr T} {o : NpArr T} {pars0 : Option (NpArr T)} {time0 : Option (TimeArg T)}
    {e : CfErr} {co : Option (NpArr T)} (hdt : ¬ o.dt = m.dt)
    (h : prepareCall m R t0 inputs0 (some o) pars0 time0 = .error (e, co)) :
    ¬ e = CfErr.outputNotWritable := by
  simp only [prepareCall] at h
  split at h
  · rw [kind_of_err h]; simp
  · split at h
    · rw [kind_of_err h]; simp
    · split at h
      · rw [kind_of_err h]; simp
      · split at h
        · rw [kind_of_err h]; simp
        · split at h
          · rw [kind_of_err h]; simp
          · split at h
            · rename_i e1 he
              rw [kind_of_err h]
              simp only
              intro hnw
              subst hnw
              have hw := outChecks_nw he
              simp [coerceArr, astypeArr, hdt] at hw
            · exact prepareTail_error_ne_nw h

theorem prepareTail_error_payload_dtne {T : Type} {m : CfMeta} {R : Option (RealOps T)} {t0 : T}
    {inputs0 : NpArr T} {o : NpArr T} {pars0 : Option (NpArr T)} {time0 : Option (TimeArg T)}
    {e : CfErr} {co : Option (NpArr T)} (hdt : ¬ o.dt = m.dt)
    (h : prepareTail m R t0 inputs0 (some o) pars0 time0 = .error (e, co)) :
    co = some o := by
  simp only [prepareTail, if_neg hdt] at h
  split at h
  · exact payload_of_err h
  · split at h
    · exact payload_of_err h
    · split at h
      · exact payload_of_err h
      · simp at h

theorem prepare_error_payload_dtne {T : Type} {m : CfMeta} {R : Option (RealOps T)} {t0 : T}
    {inputs0 : NpArr T} {o : NpArr T} {pars0 : Option (NpArr T)} {time0 : Option (TimeArg T)}
    {e : CfErr} {co : Option (NpArr T)} (hdt : ¬ o.dt = m.dt)
    (h : prepareCall m R t0 inputs0 (some o) pars0 time0 = .error (e, co)) :
    co = some o := by
  simp only [prepareCall] at h
  repeat' split at h
  all_goals try (exact prepareTail_error_payload_dtne hdt h)
  all_goals exact payload_of_err h

theorem dispatchCall_fst_meta {T : Type} {m : CfMeta}
    {K : CfKernels T m.nvars m.nouts m.nparams m.simd_size} {t0 : T} {bufs : CfBufs T}
    {P : Prepared T} :
    (dispatchCall m K t0 bufs P).1.shape = P.outp.shape
      ∧ (dispatchCall m K t0 bufs P).1.region = P.outp.region
      ∧ (dispatchCall m K t0 bufs P).1.dt = P.outp.dt
      ∧ (dispatchCall m K t0 bufs P).1.writeable = P.outp.writeable := by
  unfold dispatchCall
  repeat' split
  all_goals exact ⟨rfl, rfl, rfl, rfl⟩

/-- C9.  If the caller supplies an outputs array whose dtype differs from
the kernel's element type, the results are written into a freshly converted
array (fresh memory, the kernel's dtype, writeable) and that fresh array is
what the call returns; the caller's original outputs array object is left
completely unchanged (it is the final `callerOutputs` in every case, error
or success), and its writability is never checked (in particular the
non-writable-output error can never be raised). -/
theorem C9_dtype_mismatch_frame {T : Type} (m : CfMeta) (R : Option (RealOps T))
    (K : CfKernels T m.nvars m.nouts m.nparams m.simd_size) (t0 : T) (bufs : CfBufs T)
    (inputs0 : NpArr T) (pars0 : Option (NpArr T)) (time0 : Option (TimeArg T)) (o : NpArr T)
    (hdt : ¬ o.dt = m.dt) :
    (cfuncCall m R K t0 bufs inputs0 (some o) pars0 time0).callerOutputs = some o
      ∧ (∀ r, (cfuncCall m R K t0 bufs inputs0 (some o) pars0 time0).res = .ok r →
          r.region = none ∧ r.dt = m.dt ∧ r.writeable = true)
      ∧ (∀ e, (cfuncCall m R K t0 bufs inputs0 (some o) pars0 time0).res = .error e →
          ¬ e = CfErr.outputNotWritable) := by
  refine ⟨?_, ?_, ?_⟩
  · rcases hres : (cfuncCall m R K t0 bufs inputs0 (some o) pars0 time0).res with e | r
    · obtain ⟨co, hpre, hco, -, -⟩ := cfuncCall_of_error hres
      rw [hco]
      exact prepare_error_payload_dtne hdt hpre
    · obtain ⟨P, hpre, hrd, -, -⟩ := cfuncCall_of_ok hres
      obtain ⟨hP, -, -, -⟩ := prepare_ok_facts hpre
      rw [cfuncCall_eq_of_prepare_ok K t0 bufs hpre]
      subst hP
      simp [hdt]
  · intro r hr
    obtain ⟨P, hpre, hrd, -, -⟩ := cfuncCall_of_ok hr
    obtain ⟨hP, -, -, -⟩ := prepare_ok_facts hpre
    subst hP
    subst hrd
    obtain ⟨-, hreg, hdtp, hwr⟩ :=
      @dispatchCall_fst_meta T m K t0 bufs (mkPrepared m R t0 inputs0 (some o) pars0 time0)
    have ho : (mkPrepared m R t0 inputs0 (some o) pars0 time0).outp.region = none
        ∧ (mkPrepared m R t0 inputs0 (some o) pars0 time0).outp.dt = m.dt
        ∧ (mkPrepared m R t0 inputs0 (some o) pars0 time0).outp.writeable = true := by
      rw [mkPrepared_outp_some]
      rcases R with _ | ro <;> simp [ensureArr, coerceArr, astypeArr, hdt]
    exact ⟨hreg.trans ho.1, hdtp.trans ho.2.1, hwr.trans ho.2.2⟩
  · intro e he
    obtain ⟨co, hpre, -, -, -⟩ := cfuncCall_of_error he
    exact prepare_error_ne_nw hdt hpre

theorem C9_dtype_mismatch_frame_witness :
    (cfuncCall mC7 (none : Option (RealOps Int)) kC7 0 (initCfBufs mC7 none 0) inC6
        (some outC6bad) none none).callerOutputs = some outC6bad
      ∧ (∀ r, (cfuncCall mC7 (none : Option (RealOps Int)) kC7 0 (initCfBufs mC7 none 0) inC6
            (some outC6bad) none none).res = .ok r →
          r.region = none ∧ r.dt = mC7.dt ∧ r.writeable = true)
      ∧ (∀ e, (cfuncCall mC7 (none : Option (RealOps Int)) kC7 0 (initCfBufs mC7 none 0) inC6
            (some outC6bad) none none).res = .error e →
          ¬ e = CfErr.outputNotWritable) :=
  C9_dtype_mismatch_frame mC7 none kC7 0 (initCfBufs mC7 none 0) inC6 none none outC6bad
    (by decide)

theorem fin0_fun_eq {T : Type} (f g : Fin 0 → T) : f = g := by
  funext v
  exact v.elim0

theorem fin_fun_eq_of_zero {T : Type} {n : Nat} (h : n = 0) (f g : Fin n → T) : f = g := by
  subst h
  exact fin0_fun_eq f g

theorem getD_gather {T : Type} (src : Nat → T) (n : Nat) (buf : List T) (t0 : T) (i : Nat)
    (hlen : n ≤ buf.length) (hi : i < n) :
    (listUpd (fun j y => if j < n then src j else y) buf).getD i t0 = src i := by
  rw [getD_listUpd, if_pos (lt_of_lt_of_le hi hlen), if_pos hi]

/-- The single-evaluation gather/compute/scatter sequence computes exactly
what the direct (zero-copy) scalar-kernel call computes, provided the
scratch buffers have their construction sizes, a parameter buffer is
present whenever the kernel declares parameters, and the kernel ignores the
time argument when no time value was supplied (it is then not
time-dependent). -/
theorem bufferedSingle_fst_eq_zc {T : Type} (m : CfMeta)
    (K : CfKernels T m.nvars m.nouts m.nparams m.simd_size) (t0 : T)
    (inA : NpArr T) (parsA timeA : Option (NpArr T)) (outData : List T) (bufs : CfBufs T)
    (hW : 0 < m.simd_size)
    (hbi : bufs.buf_in.length = m.nvars * m.simd_size)
    (hbo : bufs.buf_out.length = m.nouts * m.simd_size)
    (hbp : bufs.buf_pars.length = m.nparams * m.simd_size)
    (hbt : bufs.buf_time.length = m.simd_size)
    (hp0 : parsA = none → m.nparams = 0)
    (hkt : timeA = none → ∀ vi vp t₁ t₂, K.fscal vi vp t₁ = K.fscal vi vp t₂) :
    (bufferedSingle m K t0 inA parsA timeA outData bufs).1
      = zcSingleData m K t0 inA parsA timeA outData := by
  have hInLen : m.nvars ≤ bufs.buf_in.length := by
    rw [hbi]; exact Nat.le_mul_of_pos_right _ hW
  have hOutLen : ∀ i, i < m.nouts → i < bufs.buf_out.length := by
    intro i hi
    rw [hbo]; exact lt_of_lt_of_le hi (Nat.le_mul_of_pos_right _ hW)
  have hParsLen : m.nparams ≤ bufs.buf_pars.length := by
    rw [hbp]; exact Nat.le_mul_of_pos_right _ hW
  have hTimeLen : 0 < bufs.buf_time.length := by rw [hbt]; exact hW
  have hIn : (fun (v : Fin m.nvars) =>
      (listUpd (fun j y => if j < m.nvars then inA.data.getD j t0 else y)
        bufs.buf_in).getD v.1 t0)
      = (fun (v : Fin m.nvars) => inA.data.getD v.1 t0) :=
    funext fun v => getD_gather (fun j => inA.data.getD j t0) m.nvars bufs.buf_in t0 v.1
      hInLen v.2
  rcases parsA with _ | pa <;> rcases timeA with _ | ta
  · simp only [bufferedSingle, zcSingleData]
    congr 1
    funext i x
    by_cases hi : i < m.nouts
    · rw [if_pos hi, dif_pos hi, getD_listUpd, if_pos (hOutLen i hi), dif_pos hi, hIn,
        fin_fun_eq_of_zero (hp0 rfl)
          (fun (p : Fin m.nparams) => bufs.buf_pars.getD p.1 t0)
          (fun (_ : Fin m.nparams) => t0)]
      exact congrFun (hkt rfl _ _ _ _) ⟨i, hi⟩
    · rw [if_neg hi, dif_neg hi]
  · have hT : (listUpd (fun j y => if j = 0 then ta.data.getD 0 t0 else y)
        bufs.buf_time).getD 0 t0 = ta.data.getD 0 t0 := by
      rw [getD_listUpd, if_pos hTimeLen]
      simp
    simp only [bufferedSingle, zcSingleData]
    congr 1
    funext i x
    by_cases hi : i < m.nouts
    · rw [if_pos hi, dif_pos hi, getD_listUpd, if_pos (hOutLen i hi), dif_pos hi, hIn, hT,
        fin_fun_eq_of_zero (hp0 rfl)
          (fun (p : Fin m.nparams) => bufs.buf_pars.getD p.1 t0)
          (fun (_ : Fin m.nparams) => t0)]
    · rw [if_neg hi, dif_neg hi]
  · have hPars : (fun (p : Fin m.nparams) =>
        (listUpd (fun j y => if j < m.nparams then pa.data.getD j t0 else y)
          bufs.buf_pars).getD p.1 t0)
        = (fun (p : Fin m.nparams) => pa.data.getD p.1 t0) :=
      funext fun p => getD_gather (fun j => pa.data.getD j t0) m.nparams bufs.buf_pars t0 p.1
        hParsLen p.2
    simp only [bufferedSingle, zcSingleData]
    congr 1
    funext i x
    by_cases hi : i < m.nouts
    · rw [if_pos hi, dif_pos hi, getD_listUpd, if_pos (hOutLen i hi), dif_pos hi, hIn, hPars]
      exact congrFun (hkt rfl _ _ _ _) ⟨i, hi⟩
    · rw [if_neg hi, dif_neg hi]
  · have hPars : (fun (p : Fin m.nparams) =>
        (listUpd (fun j y => if j < m.nparams then pa.data.getD j t0 else y)
          bufs.buf_pars).getD p.1 t0)
        = (fun (p : Fin m.nparams) => pa.data.getD p.1 t0) :=
      funext fun p => getD_gather (fun j => pa.data.getD j t0) m.nparams bufs.buf_pars t0 p.1
        hParsLen p.2
    have hT : (listUpd (fun j y => if j = 0 then ta.data.getD 0 t0 else y)
        bufs.buf_time).getD 0 t0 = ta.data.getD 0 t0 := by
      rw [getD_listUpd, if_pos hTimeLen]
      simp
    simp only [bufferedSingle, zcSingleData]
    congr 1
    funext i x
    by_cases hi : i < m.nouts
    · rw [if_pos hi, dif_pos hi, getD_listUpd, if_pos (hOutLen i hi), dif_pos hi, hIn, hPars,
        hT]
    · rw [if_neg hi, dif_neg hi]

/-- Aliasing/contiguity manipulation of an array: change only the
C-contiguity flag and the memory extent, leaving shape, contents, dtype and
writability alone. -/
def setCR {T : Type} (c : Bool) (ρ : Option (Nat × Nat)) (a : NpArr T) : NpArr T :=
  { a with carray := c, region := ρ }

/-- The same manipulation on a time argument. -/
def setCRT {T : Type} (c : Bool) (ρ : Option (Nat × Nat)) : TimeArg T → TimeArg T
  | .scalar v => .scalar v
  | .iter a => .iter (setCR c ρ a)

@[simp] theorem setCR_shape {T : Type} (c : Bool) (ρ : Option (Nat × Nat)) (a : NpArr T) :
    (setCR c ρ a).shape = a.shape := rfl

@[simp] theorem setCR_data {T : Type} (c : Bool) (ρ : Option (Nat × Nat)) (a : NpArr T) :
    (setCR c ρ a).data = a.data := rfl

@[simp] theorem setCR_dt {T : Type} (c : Bool) (ρ : Option (Nat × Nat)) (a : NpArr T) :
    (setCR c ρ a).dt = a.dt := rfl

@[simp] theorem setCR_writeable {T : Type} (c : Bool) (ρ : Option (Nat × Nat)) (a : NpArr T) :
    (setCR c ρ a).writeable = a.writeable := rfl

@[simp] theorem setCR_ndim {T : Type} (c : Bool) (ρ : Option (Nat × Nat)) (a : NpArr T) :
    (setCR c ρ a).ndim = a.ndim := rfl

@[simp] theorem setCR_shape0 {T : Type} (c : Bool) (ρ : Option (Nat × Nat)) (a : NpArr T) :
    (setCR c ρ a).shape0 = a.shape0 := rfl

@[simp] theorem setCR_shape1 {T : Type} (c : Bool) (ρ : Option (Nat × Nat)) (a : NpArr T) :
    (setCR c ρ a).shape1 = a.shape1 := rfl

@[simp] theorem precOk_setCR {T : Type} (ro : RealOps T) (p : Nat) (c : Bool)
    (ρ : Option (Nat × Nat)) (a : NpArr T) :
    precOkArr ro p (setCR c ρ a) = precOkArr ro p a := rfl

@[simp] theorem coerce_writeable_setCR {T : Type} (d : Nat) (c : Bool)
    (ρ : Option (Nat × Nat)) (a : NpArr T) :
    (coerceArr d (setCR c ρ a)).writeable = (coerceArr d a).writeable := by
  unfold coerceArr astypeArr setCR
  by_cases hd : a.dt = d <;> simp [hd]

@[simp] theorem timeIsIter_map_setCRT {T : Type} (c : Bool) (ρ : Option (Nat × Nat))
    (t : Option (TimeArg T)) :
    timeIsIter (t.map (setCRT c ρ)) = timeIsIter t := by
  rcases t with _ | tv
  · rfl
  · cases tv <;> rfl

@[simp] theorem timeToArr_setCRT_shape {T : Type} (d : Nat) (c : Bool)
    (ρ : Option (Nat × Nat)) (t : TimeArg T) :
    (timeToArr d (setCRT c ρ t)).shape = (timeToArr d t).shape := by
  cases t <;> rfl

@[simp] theorem timeToArr_setCRT_data {T : Type} (d : Nat) (c : Bool)
    (ρ : Option (Nat × Nat)) (t : TimeArg T) :
    (timeToArr d (setCRT c ρ t)).data = (timeToArr d t).data := by
  cases t <;> rfl

theorem timeToArr_setCRT_ndim {T : Type} (d : Nat) (c : Bool) (ρ : Option (Nat × Nat))
    (t : TimeArg T) : (timeToArr d (setCRT c ρ t)).ndim = (timeToArr d t).ndim := by
  unfold NpArr.ndim
  rw [timeToArr_setCRT_shape]

theorem timeToArr_setCRT_shape0 {T : Type} (d : Nat) (c : Bool) (ρ : Option (Nat × Nat))
    (t : TimeArg T) : (timeToArr d (setCRT c ρ t)).shape0 = (timeToArr d t).shape0 := by
  unfold NpArr.shape0
  rw [timeToArr_setCRT_shape]

theorem precOk_timeToArr_setCRT {T : Type} (ro : RealOps T) (p d : Nat) (c : Bool)
    (ρ : Option (Nat × Nat)) (t : TimeArg T) :
    precOkArr ro p (timeToArr d (setCRT c ρ t)) = precOkArr ro p (timeToArr d t) := by
  unfold precOkArr
  rw [timeToArr_setCRT_data]

/-- Validity of a call is unaffected by contiguity/aliasing manipulation of
the buffers: the validator never consults the C-contiguity flags or the
memory extents. -/
theorem ValidPre_setCR {T : Type} {m : CfMeta} {R : Option (RealOps T)} {inputs0 : NpArr T}
    {outputs0 pars0 : Option (NpArr T)} {time0 : Option (TimeArg T)}
    (h : ValidPre m R inputs0 outputs0 pars0 time0)
    (ci : Bool) (ρi : Option (Nat × Nat)) (co : Bool) (ρo : Option (Nat × Nat))
    (cp : Bool) (ρp : Option (Nat × Nat)) (ct : Bool) (ρt : Option (Nat × Nat)) :
    ValidPre m R (setCR ci ρi inputs0) (outputs0.map (setCR co ρo))
      (pars0.map (setCR cp ρp)) (time0.map (setCRT ct ρt)) := by
  obtain ⟨hp, ht, hd, hi, hs, ho, hpi, hpa, hta⟩ := h
  refine ⟨?_, ?_, ?_, ?_, ?_, ?_, ?_, ?_, ?_⟩
  · intro hn hnone
    apply hp hn
    rcases pars0 with _ | pa
    · rfl
    · simp at hnone
  · intro hn hnone
    apply ht hn
    rcases time0 with _ | tv
    · rfl
    · simp at hnone
  · simpa using hd
  · simpa using hi
  · intro hit
    simpa using hs (by simpa using hit)
  · intro o h'
    rcases outputs0 with _ | o0
    · exact Option.noConfusion h'
    · simp only [Option.map_some'] at h'
      obtain ⟨h1, h2, h3, h4⟩ := ho o0 rfl
      rw [← Option.some.inj h']
      exact ⟨by simpa using h1, by simpa using h2, by simpa using h3,
        fun hm => by simpa using h4 (by simpa using hm)⟩
  · intro ro hr
    simpa using hpi ro hr
  · intro pa h'
    rcases pars0 with _ | pa0
    · exact Option.noConfusion h'
    · simp only [Option.map_some'] at h'
      obtain ⟨h1, h2, h3, h4⟩ := hpa pa0 rfl
      rw [← Option.some.inj h']
      exact ⟨by simpa using h1, by simpa using h2, fun hm => by simpa using h3 (by simpa using hm),
        fun ro hro => by simpa using h4 ro hro⟩
  · intro t h'
    rcases time0 with _ | t00
    · exact Option.noConfusion h'
    · simp only [Option.map_some'] at h'
      obtain ⟨h1, h2, h3⟩ := hta t00 rfl
      rw [← Option.some.inj h']
      refine ⟨?_, ?_, ?_⟩
      · rw [timeToArr_setCRT_ndim]; exact h1
      · intro hm
        rw [timeToArr_setCRT_shape0]
        simpa using h2 (by simpa using hm)
      · intro ro hro
        rw [precOk_timeToArr_setCRT]
        exact h3 ro hro

/-- Content equality of two arrays: same shape, element data, writability
and dtype (the C-contiguity flag and memory extent may differ — those are
exactly the properties a caller manipulates to force one execution path or
the other). -/
def sameContent {T : Type} (a b : NpArr T) : Prop :=
  a.shape = b.shape ∧ a.data = b.data ∧ a.writeable = b.writeable ∧ a.dt = b.dt

/-- Content equality of two optional arrays. -/
def optSameContent {T : Type} : Option (NpArr T) → Option (NpArr T) → Prop
  | none, none => True
  | some a, some b => sameContent a b
  | _, _ => False

/-- Content equality of two optional time arguments. -/
def timeSameContent {T : Type} : Option (TimeArg T) → Option (TimeArg T) → Prop
  | none, none => True
  | some (.scalar v), some (.scalar w) => v = w
  | some (.iter a), some (.iter b) => sameContent a b
  | _, _ => False

theorem zcSingleData_congr {T : Type} (m : CfMeta)
    (K : CfKernels T m.nvars m.nouts m.nparams m.simd_size) (t0 : T)
    {inA inA' : NpArr T} {parsA parsA' timeA timeA' : Option (NpArr T)} {outD outD' : List T}
    (hin : inA.data = inA'.data)
    (hpars : match parsA, parsA' with
      | none, none => True
      | some a, some b => a.data = b.data
      | _, _ => False)
    (htime : match timeA, timeA' with
      | none, none => True
      | some a, some b => a.data = b.data
      | _, _ => False)
    (hout : outD = outD') :
    zcSingleData m K t0 inA parsA timeA outD = zcSingleData m K t0 inA' parsA' timeA' outD' := by
  subst hout
  rcases parsA with _ | pa <;> rcases parsA' with _ | pa'
  · rcases timeA with _ | ta <;> rcases timeA' with _ | ta'
    · simp only [zcSingleData]
      rw [hin]
    · exact htime.elim
    · exact htime.elim
    · simp only [zcSingleData]
      rw [hin, show ta.data = ta'.data from htime]
  · exact hpars.elim
  · exact hpars.elim
  · rcases timeA with _ | ta <;> rcases timeA' with _ | ta'
    · simp only [zcSingleData]
      rw [hin, show pa.data = pa'.data from hpars]
    · exact htime.elim
    · exact htime.elim
    · simp only [zcSingleData]
      rw [hin, show pa.data = pa'.data from hpars, show ta.data = ta'.data from htime]

theorem mkPrepared_outp_data_congr {T : Type} (m : CfMeta) (R : Option (RealOps T)) (t0 : T)
    {i i' : NpArr T} {o o' : Option (NpArr T)} (p p' : Option (NpArr T))
    (t t' : Option (TimeArg T))
    (hish : i.shape = i'.shape)
    (ho : match o, o' with
      | none, none => True
      | some a, some b => a.data = b.data
      | _, _ => False) :
    (mkPrepared m R t0 i o p t).outp.data = (mkPrepared m R t0 i' o' p' t').outp.data := by
  rcases o with _ | a <;> rcases o' with _ | b
  · have h1 : (coerceArr m.dt i).ndim = (coerceArr m.dt i').ndim := by
      unfold NpArr.ndim
      simp [hish]
    have h2 : (coerceArr m.dt i).shape1 = (coerceArr m.dt i').shape1 := by
      unfold NpArr.shape1
      simp [hish]
    rw [mkPrepared_outp_none, mkPrepared_outp_none, h1, h2]
  · exact ho.elim
  · exact ho.elim
  · rw [mkPrepared_outp_some, mkPrepared_outp_some]
    rcases R with _ | ro
    · rw [data_coerce, data_coerce]
      exact ho
    · simp only [ensureArr, data_coerce]
      rw [show a.data = b.data from ho]

/-- C2.  For every valid single-evaluation call, the zero-copy path (one
direct scalar-kernel invocation reading/writing the caller buffers) and the
buffered path (gather into the scratch arena, one scalar-kernel
invocation, scatter back) produce bitwise-identical contents in the
returned outputs array: two calls whose buffers have identical contents, of
which the first runs zero-copy and the second buffered (forced via
contiguity/aliasing manipulation, which validation ignores), both succeed
and return equal output data. -/
theorem C2_single_eval_paths_agree {T : Type} (m : CfMeta) (R : Option (RealOps T))
    (K : CfKernels T m.nvars m.nouts m.nparams m.simd_size) (t0 : T) (bufs : CfBufs T)
    (inputs0 inputs0' : NpArr T) (outputs0 outputs0' pars0 pars0' : Option (NpArr T))
    (time0 time0' : Option (TimeArg T))
    (hv : ValidPre m R inputs0 outputs0 pars0 time0)
    (hv' : ValidPre m R inputs0' outputs0' pars0' time0')
    (hdim : inputs0.ndim = 1)
    (hsameIn : sameContent inputs0 inputs0')
    (hsameOut : optSameContent outputs0 outputs0')
    (hsamePars : optSameContent pars0 pars0')
    (hsameTime : timeSameContent time0 time0')
    (hz : (mkPrepared m R t0 inputs0 outputs0 pars0 time0).zc = true)
    (hz' : (mkPrepared m R t0 inputs0' outputs0' pars0' time0').zc = false)
    (hW : 0 < m.simd_size)
    (hbi : bufs.buf_in.length = m.nvars * m.simd_size)
    (hbo : bufs.buf_out.length = m.nouts * m.simd_size)
    (hbp : bufs.buf_pars.length = m.nparams * m.simd_size)
    (hbt : bufs.buf_time.length = m.simd_size)
    (hker : m.is_time_dependent = false → ∀ vi vp t₁ t₂, K.fscal vi vp t₁ = K.fscal vi vp t₂) :
    ∃ r r',
      (cfuncCall m R K t0 bufs inputs0 outputs0 pars0 time0).res = .ok r
      ∧ (cfuncCall m R K t0 bufs inputs0' outputs0' pars0' time0').res = .ok r'
      ∧ (cfuncCall m R K t0 bufs inputs0 outputs0 pars0 time0).trace
          = [KInv.scalZ true pars0.isSome time0.isSome]
      ∧ (cfuncCall m R K t0 bufs inputs0' outputs0' pars0' time0').trace = [KInv.scalB]
      ∧ r.data = r'.data := by
  obtain ⟨hish, hidata, hiw, hidt⟩ := hsameIn
  have hdim' : inputs0'.ndim = 1 := by
    unfold NpArr.ndim at hdim ⊢
    rw [← hish]
    exact hdim
  have hP := @prepare_valid T m R t0 inputs0 outputs0 pars0 time0 hv
  have hP' := @prepare_valid T m R t0 inputs0' outputs0' pars0' time0' hv'
  rw [cfuncCall_eq_of_prepare_ok K t0 bufs hP, cfuncCall_eq_of_prepare_ok K t0 bufs hP']
  have hm : (mkPrepared m R t0 inputs0 outputs0 pars0 time0).multi = false := by
    simp [hdim]
  have hm' : (mkPrepared m R t0 inputs0' outputs0' pars0' time0').multi = false := by
    simp [hdim']
  rw [dispatchCall_single_zc hm hz, dispatchCall_single_buf hm' hz']
  have hp0' : (mkPrepared m R t0 inputs0' outputs0' pars0' time0').pars = none
      → m.nparams = 0 := by
    simp only [mkPrepared_pars]
    intro hnone
    by_contra h0
    apply hv'.hpars (Nat.pos_of_ne_zero h0)
    rcases pars0' with _ | pa
    · rfl
    · simp at hnone
  have hkt' : (mkPrepared m R t0 inputs0' outputs0' pars0' time0').time = none
      → ∀ vi vp t₁ t₂, K.fscal vi vp t₁ = K.fscal vi vp t₂ := by
    simp only [mkPrepared_time]
    intro hnone
    have ht0' : time0' = none := by
      rcases time0' with _ | tv
      · rfl
      · simp at hnone
    cases htd : m.is_time_dependent with
    | false => exact hker htd
    | true => exact absurd ht0' (hv'.htime htd)
  refine ⟨_, _, rfl, rfl, ?_, rfl, ?_⟩
  · simp
  · show zcSingleData m K t0 (mkPrepared m R t0 inputs0 outputs0 pars0 time0).inputs
        (mkPrepared m R t0 inputs0 outputs0 pars0 time0).pars
        (mkPrepared m R t0 inputs0 outputs0 pars0 time0).time
        (mkPrepared m R t0 inputs0 outputs0 pars0 time0).outp.data
      = (bufferedSingle m K t0 (mkPrepared m R t0 inputs0' outputs0' pars0' time0').inputs
          (mkPrepared m R t0 inputs0' outputs0' pars0' time0').pars
          (mkPrepared m R t0 inputs0' outputs0' pars0' time0').time
          (mkPrepared m R t0 inputs0' outputs0' pars0' time0').outp.data bufs).1
    rw [bufferedSingle_fst_eq_zc m K t0 _ _ _ _ bufs hW hbi hbo hbp hbt hp0' hkt']
    apply zcSingleData_congr
    · simp [hidata]
    · simp only [mkPrepared_pars]
      rcases pars0 with _ | pa <;> rcases pars0' with _ | pa'
      · exact trivial
      · exact False.elim hsamePars
      · exact False.elim hsamePars
      · simpa using hsamePars.2.1
    · simp only [mkPrepared_time]
      rcases time0 with _ | tv <;> rcases time0' with _ | tv'
      · exact trivial
      · cases tv' <;> exact False.elim hsameTime
      · cases tv <;> exact False.elim hsameTime
      · rcases tv with v | a <;> rcases tv' with w | b
        · simp only [Option.map_some', data_coerce]
          rw [show v = w from hsameTime]
        · exact False.elim hsameTime
        · exact False.elim hsameTime
        · simpa [timeToArr] using hsameTime.2.1
    · apply mkPrepared_outp_data_congr m R t0 _ _ _ _ hish
      rcases outputs0 with _ | a <;> rcases outputs0' with _ | b
      · exact trivial
      · exact False.elim hsameOut
      · exact False.elim hsameOut
      · exact hsameOut.2.1

def inC2a : NpArr Int :=
  { shape := [2], data := [3, 4], writeable := true, dt := 0, carray := true, region := none }

def inC2b : NpArr Int :=
  { shape := [2], data := [3, 4], writeable := true, dt := 0, carray := false, region := none }

theorem validC2a : ValidPre mC7 (none : Option (RealOps Int)) inC2a none none none := by
  refine ⟨?_, ?_, ?_, ?_, ?_, ?_, ?_, ?_, ?_⟩
  · intro h; exact absurd h (by decide)
  · intro h; exact absurd h (by decide)
  · left; decide
  · decide
  · intro h; exact absurd h (by decide)
  · intro o h; exact Option.noConfusion h
  · intro ro h; exact Option.noConfusion h
  · intro pa h; exact Option.noConfusion h
  · intro t h; exact Option.noConfusion h

theorem validC2b : ValidPre mC7 (none : Option (RealOps Int)) inC2b none none none := by
  refine ⟨?_, ?_, ?_, ?_, ?_, ?_, ?_, ?_, ?_⟩
  · intro h; exact absurd h (by decide)
  · intro h; exact absurd h (by decide)
  · left; decide
  · decide
  · intro h; exact absurd h (by decide)
  · intro o h; exact Option.noConfusion h
  · intro ro h; exact Option.noConfusion h
  · intro pa h; exact Option.noConfusion h
  · intro t h; exact Option.noConfusion h

theorem C2_single_eval_paths_agree_witness :
    ∃ r r',
      (cfuncCall mC7 (none : Option (RealOps Int)) kC7 0 (initCfBufs mC7 none 0) inC2a none
        none none).res = .ok r
      ∧ (cfuncCall mC7 (none : Option (RealOps Int)) kC7 0 (initCfBufs mC7 none 0) inC2b none
          none none).res = .ok r'
      ∧ (cfuncCall mC7 (none : Option (RealOps Int)) kC7 0 (initCfBufs mC7 none 0) inC2a none
          none none).trace
        = [KInv.scalZ true (none : Option (NpArr Int)).isSome
            (none : Option (TimeArg Int)).isSome]
      ∧ (cfuncCall mC7 (none : Option (RealOps Int)) kC7 0 (initCfBufs mC7 none 0) inC2b none
          none none).trace = [KInv.scalB]
      ∧ r.data = r'.data :=
  C2_single_eval_paths_agree mC7 none kC7 0 (initCfBufs mC7 none 0) inC2a inC2b none none
    none none none none validC2a validC2b (by decide) ⟨rfl, rfl, rfl, rfl⟩ trivial trivial
    trivial (by decide) (by decide) (by decide) (by decide) (by decide) (by decide) (by decide)
    (fun _ vi vp t₁ t₂ => rfl)

theorem forall_updFrom {T : Type} (P : T → Prop) (f : Nat → T → T) (n : Nat) (l : List T)
    (hl : ∀ x ∈ l, P x) (hf : ∀ i x, P x → P (f i x)) : ∀ x ∈ updFrom f n l, P x := by
  induction l generalizing n with
  | nil => intro x hx; cases hx
  | cons a rest ih =>
    intro x hx
    rcases List.mem_cons.1 hx with h | h
    · subst h; exact hf n a (hl a (List.mem_cons_self a rest))
    · exact ih (n + 1) (fun y hy => hl y (List.mem_cons_of_mem a hy)) x h

theorem forall_listUpd {T : Type} (P : T → Prop) (f : Nat → T → T) (l : List T)
    (hl : ∀ x ∈ l, P x) (hf : ∀ i x, P x → P (f i x)) : ∀ x ∈ listUpd f l, P x :=
  forall_updFrom P f 0 l hl hf

theorem forall_getD {T : Type} (P : T → Prop) (l : List T) (d : T)
    (hl : ∀ x ∈ l, P x) (hd : P d) (n : Nat) : P (l.getD n d) := by
  induction l generalizing n with
  | nil => simpa [List.getD] using hd
  | cons a rest ih =>
    cases n with
    | zero => simpa using hl a (List.mem_cons_self a rest)
    | succ k =>
      simpa using ih (fun y hy => hl y (List.mem_cons_of_mem a hy)) k

theorem precOkArr_forall {T : Type} {ro : RealOps T} {p : Nat} {a : NpArr T}
    (h : precOkArr ro p a = true) : ∀ x ∈ a.data, ro.slotPrec x = p := by
  intro x hx
  have := (List.all_eq_true.1 h) x hx
  exact Nat.eq_of_beq_eq_true (by simpa using this)

/-- All four scratch buffers hold values constructed at precision `p`. -/
def bufsPrecOk (p : Nat) (b : CfBufs RVal) : Prop :=
  (∀ x ∈ b.buf_in, x.prec = p) ∧ (∀ x ∈ b.buf_out, x.prec = p)
    ∧ (∀ x ∈ b.buf_pars, x.prec = p) ∧ (∀ x ∈ b.buf_time, x.prec = p)

/-- The four scratch buffers have exactly their construction sizes
`nvars·W`, `nouts·W`, `nparams·W` and `W`. -/
def bufsLens {T : Type} (m : CfMeta) (b : CfBufs T) : Prop :=
  b.buf_in.length = m.nvars * m.simd_size ∧ b.buf_out.length = m.nouts * m.simd_size
    ∧ b.buf_pars.length = m.nparams * m.simd_size ∧ b.buf_time.length = m.simd_size

/-- The combined scratch-buffer invariant for the `mppp::real`
instantiation: construction sizes and working precision in every slot. -/
def C8Inv (m : CfMeta) (b : CfBufs RVal) : Prop := bufsLens m b ∧ bufsPrecOk m.prec b

theorem bufferedSingle_inv (m : CfMeta)
    (K : CfKernels RVal m.nvars m.nouts m.nparams m.simd_size) (t0 : RVal)
    (inA : NpArr RVal) (parsA timeA : Option (NpArr RVal)) (outD : List RVal)
    (bufs : CfBufs RVal)
    (ht0 : t0.prec = m.prec)
    (hks : ∀ vi vp tv i, (K.fscal vi vp tv i).prec = m.prec)
    (hin : ∀ x ∈ inA.data, x.prec = m.prec)
    (hpars : ∀ pa, parsA = some pa → ∀ x ∈ pa.data, x.prec = m.prec)
    (htime : ∀ ta, timeA = some ta → ∀ x ∈ ta.data, x.prec = m.prec)
    (hb : C8Inv m bufs) :
    C8Inv m (bufferedSingle m K t0 inA parsA timeA outD bufs).2 := by
  obtain ⟨⟨hl1, hl2, hl3, hl4⟩, hp1, hp2, hp3, hp4⟩ := hb
  refine ⟨⟨?_, ?_, ?_, ?_⟩, ?_, ?_, ?_, ?_⟩
  · simp only [bufferedSingle, length_listUpd]
    exact hl1
  · simp only [bufferedSingle, length_listUpd]
    exact hl2
  · simp only [bufferedSingle]
    rcases parsA with _ | pa
    · exact hl3
    · simp only [length_listUpd]
      exact hl3
  · simp only [bufferedSingle]
    rcases timeA with _ | ta
    · exact hl4
    · simp only [length_listUpd]
      exact hl4
  · simp only [bufferedSingle]
    apply forall_listUpd _ _ _ hp1
    intro i x hx
    by_cases h : i < m.nvars
    · simpa [h] using forall_getD (fun y => y.prec = m.prec) inA.data t0 hin ht0 i
    · simpa [h] using hx
  · simp only [bufferedSingle]
    apply forall_listUpd
    · exact hp2
    · intro i x hx
      by_cases h : i < m.nouts
      · simpa [h] using hks _ _ _ ⟨i, h⟩
      · simpa [h] using hx
  · simp only [bufferedSingle]
    rcases parsA with _ | pa
    · exact hp3
    · apply forall_listUpd _ _ _ hp3
      intro i x hx
      by_cases h : i < m.nparams
      · simpa [h] using forall_getD (fun y => y.prec = m.prec) pa.data t0 (hpars pa rfl) ht0 i
      · simpa [h] using hx
  · simp only [bufferedSingle]
    rcases timeA with _ | ta
    · exact hp4
    · apply forall_listUpd _ _ _ hp4
      intro i x hx
      by_cases h : i = 0
      · simpa [h] using forall_getD (fun y => y.prec = m.prec) ta.data t0 (htime ta rfl) ht0 0
      · simpa [h] using hx

theorem blockStep_inv (m : CfMeta)
    (K : CfKernels RVal m.nvars m.nouts m.nparams m.simd_size) (t0 : RVal)
    (inA : NpArr RVal) (parsA timeA : Option (NpArr RVal)) (N : Nat)
    (st : List RVal × CfBufs RVal) (k : Nat)
    (ht0 : t0.prec = m.prec)
    (hkb : ∀ vi vp tv i j, (K.fbatch vi vp tv i j).prec = m.prec)
    (hin : ∀ x ∈ inA.data, x.prec = m.prec)
    (hpars : ∀ pa, parsA = some pa → ∀ x ∈ pa.data, x.prec = m.prec)
    (htime : ∀ ta, timeA = some ta → ∀ x ∈ ta.data, x.prec = m.prec)
    (hb : C8Inv m st.2) :
    C8Inv m (blockStep m K t0 inA parsA timeA N st k).2 := by
  obtain ⟨⟨hl1, hl2, hl3, hl4⟩, hp1, hp2, hp3, hp4⟩ := hb
  refine ⟨⟨?_, ?_, ?_, ?_⟩, ?_, ?_, ?_, ?_⟩
  · simp only [blockStep, length_listUpd]
    exact hl1
  · simp only [blockStep, length_listUpd]
    exact hl2
  · simp only [blockStep]
    rcases parsA with _ | pa
    · exact hl3
    · simp only [length_listUpd]
      exact hl3
  · simp only [blockStep]
    rcases timeA with _ | ta
    · exact hl4
    · simp only [length_listUpd]
      exact hl4
  · simp only [blockStep]
    apply forall_listUpd _ _ _ hp1
    intro i x hx
    by_cases h : i < m.nvars * m.simd_size
    · simpa [h] using forall_getD (fun y => y.prec = m.prec) inA.data t0 hin ht0 _
    · simpa [h] using hx
  · simp only [blockStep]
    apply forall_listUpd
    · exact hp2
    · intro i x hx
      by_cases h : i < m.nouts * m.simd_size
      · simpa [h] using hkb _ _ _ _ _
      · simpa [h] using hx
  · simp only [blockStep]
    rcases parsA with _ | pa
    · exact hp3
    · apply forall_listUpd _ _ _ hp3
      intro i x hx
      by_cases h : i < m.nparams * m.simd_size
      · simpa [h] using forall_getD (fun y => y.prec = m.prec) pa.data t0 (hpars pa rfl) ht0 _
      · simpa [h] using hx
  · simp only [blockStep]
    rcases timeA with _ | ta
    · exact hp4
    · apply forall_listUpd _ _ _ hp4
      intro i x hx
      by_cases h : i < m.simd_size
      · simpa [h] using forall_getD (fun y => y.prec = m.prec) ta.data t0 (htime ta rfl) ht0 _
      · simpa [h] using hx

theorem remStep_inv (m : CfMeta)
    (K : CfKernels RVal m.nvars m.nouts m.nparams m.simd_size) (t0 : RVal)
    (inA : NpArr RVal) (parsA timeA : Option (NpArr RVal)) (N : Nat)
    (st : List RVal × CfBufs RVal) (k : Nat)
    (ht0 : t0.prec = m.prec)
    (hks : ∀ vi vp tv i, (K.fscal vi vp tv i).prec = m.prec)
    (hin : ∀ x ∈ inA.data, x.prec = m.prec)
    (hpars : ∀ pa, parsA = some pa → ∀ x ∈ pa.data, x.prec = m.prec)
    (htime : ∀ ta, timeA = some ta → ∀ x ∈ ta.data, x.prec = m.prec)
    (hb : C8Inv m st.2) :
    C8Inv m (remStep m K t0 inA parsA timeA N st k).2 := by
  obtain ⟨⟨hl1, hl2, hl3, hl4⟩, hp1, hp2, hp3, hp4⟩ := hb
  refine ⟨⟨?_, ?_, ?_, ?_⟩, ?_, ?_, ?_, ?_⟩
  · simp only [remStep, length_listUpd]
    exact hl1
  · simp only [remStep, length_listUpd]
    exact hl2
  · simp only [remStep]
    rcases parsA with _ | pa
    · exact hl3
    · simp only [length_listUpd]
      exact hl3
  · simp only [remStep]
    rcases timeA with _ | ta
    · exact hl4
    · simp only [length_listUpd]
      exact hl4
  · simp only [remStep]
    apply forall_listUpd _ _ _ hp1
    intro i x hx
    by_cases h : i < m.nvars
    · simpa [h] using forall_getD (fun y => y.prec = m.prec) inA.data t0 hin ht0 _
    · simpa [h] using hx
  · simp only [remStep]
    apply forall_listUpd
    · exact hp2
    · intro i x hx
      by_cases h : i < m.nouts
      · simpa [h] using hks _ _ _ ⟨i, h⟩
      · simpa [h] using hx
  · simp only [remStep]
    rcases parsA with _ | pa
    · exact hp3
    · apply forall_listUpd _ _ _ hp3
      intro i x hx
      by_cases h : i < m.nparams
      · simpa [h] using forall_getD (fun y => y.prec = m.prec) pa.data t0 (hpars pa rfl) ht0 _
      · simpa [h] using hx
  · simp only [remStep]
    rcases timeA with _ | ta
    · exact hp4
    · apply forall_listUpd _ _ _ hp4
      intro i x hx
      by_cases h : i = 0
      · simpa [h] using forall_getD (fun y => y.prec = m.prec) ta.data t0 (htime ta rfl) ht0 _
      · simpa [h] using hx

theorem dispatch_bufs_inv (m : CfMeta)
    (K : CfKernels RVal m.nvars m.nouts m.nparams m.simd_size) (t0 : RVal)
    (bufs : CfBufs RVal) (P : Prepared RVal)
    (ht0 : t0.prec = m.prec)
    (hks : ∀ vi vp tv i, (K.fscal vi vp tv i).prec = m.prec)
    (hkb : ∀ vi vp tv i j, (K.fbatch vi vp tv i j).prec = m.prec)
    (hin : ∀ x ∈ P.inputs.data, x.prec = m.prec)
    (hpars : ∀ pa, P.pars = some pa → ∀ x ∈ pa.data, x.prec = m.prec)
    (htime : ∀ ta, P.time = some ta → ∀ x ∈ ta.data, x.prec = m.prec)
    (hb : C8Inv m bufs) :
    C8Inv m (dispatchCall m K t0 bufs P).2.2 := by
  unfold dispatchCall
  by_cases hm : P.multi = true
  · rw [if_pos hm]
    by_cases hz : P.zc = true
    · rw [if_pos hz]
      exact hb
    · rw [if_neg hz]
      have h1 := foldl_preserves (fun (st : List RVal × CfBufs RVal) => C8Inv m st.2)
        (blockStep m K t0 P.inputs P.pars P.time P.inputs.shape1)
        (List.range (P.inputs.shape1 / m.simd_size)) (P.outp.data, bufs) hb
        (fun s a hs => blockStep_inv m K t0 P.inputs P.pars P.time P.inputs.shape1 s a ht0 hkb
          hin hpars htime hs)
      exact foldl_preserves (fun (st : List RVal × CfBufs RVal) => C8Inv m st.2)
        (remStep m K t0 P.inputs P.pars P.time P.inputs.shape1) _ _ h1
        (fun s a hs => remStep_inv m K t0 P.inputs P.pars P.time P.inputs.shape1 s a ht0 hks
          hin hpars htime hs)
  · rw [if_neg hm]
    by_cases hz : P.zc = true
    · rw [if_pos hz]
      exact hb
    · rw [if_neg hz]
      exact bufferedSingle_inv m K t0 P.inputs P.pars P.time P.outp.data bufs ht0 hks hin
        hpars htime hb

/-- C8.  The evaluator owns four scratch buffers of exactly `nvars·W`,
`nouts·W`, `nparams·W` and `W` elements; for the arbitrary-precision
element type every slot is set to the working precision `prec` once at
construction, and no evaluation call resizes or reconstructs these slots:
every scratch slot still has its construction size and still holds a value
at precision `prec` after any successful call, provided the kernels honour
their contract of writing values at the working precision. -/
theorem C8_scratch_buffer_invariant (m : CfMeta)
    (K : CfKernels RVal m.nvars m.nouts m.nparams m.simd_size) (t0 : RVal)
    (ht0 : t0.prec = m.prec)
    (hks : ∀ vi vp tv i, (K.fscal vi vp tv i).prec = m.prec)
    (hkb : ∀ vi vp tv i j, (K.fbatch vi vp tv i j).prec = m.prec) :
    bufsLens m (initCfBufs m (some rOps) t0)
      ∧ bufsPrecOk m.prec (initCfBufs m (some rOps) t0)
      ∧ ∀ bufs inputs0 outputs0 pars0 time0 r,
          C8Inv m bufs →
          (cfuncCall m (some rOps) K t0 bufs inputs0 outputs0 pars0 time0).res = .ok r →
          C8Inv m ((cfuncCall m (some rOps) K t0 bufs inputs0 outputs0 pars0 time0).bufs) := by
  refine ⟨⟨?_, ?_, ?_, ?_⟩, ⟨?_, ?_, ?_, ?_⟩, ?_⟩
  · simp [initCfBufs, mkCfBufs]
  · simp [initCfBufs, mkCfBufs]
  · simp [initCfBufs, mkCfBufs]
  · simp [initCfBufs, mkCfBufs]
  · intro x hx
    simp [initCfBufs, mkCfBufs] at hx
    rw [hx.2]
    rfl
  · intro x hx
    simp [initCfBufs, mkCfBufs] at hx
    rw [hx.2]
    rfl
  · intro x hx
    simp [initCfBufs, mkCfBufs] at hx
    rw [hx.2]
    rfl
  · intro x hx
    simp [initCfBufs, mkCfBufs] at hx
    rw [hx.2]
    rfl
  · intro bufs inputs0 outputs0 pars0 time0 r hb hok
    obtain ⟨P, hpre, -, -, hbufs⟩ := cfuncCall_of_ok hok
    rw [hbufs]
    obtain ⟨hP, hpin, hppars, hptime⟩ := prepare_ok_facts hpre
    refine dispatch_bufs_inv m K t0 bufs P ht0 hks hkb ?_ ?_ ?_ hb
    · intro x hx
      subst hP
      rw [mkPrepared_inputs, data_coerce] at hx
      exact precOkArr_forall (hpin rOps rfl) x hx
    · intro pa hpa x hx
      subst hP
      rw [mkPrepared_pars] at hpa
      rcases pars0 with _ | pa0
      · exact Option.noConfusion hpa
      · simp only [Option.map_some'] at hpa
        rw [← Option.some.inj hpa, data_coerce] at hx
        exact precOkArr_forall (hppars pa0 rOps rfl rfl) x hx
    · intro ta hta x hx
      subst hP
      rw [mkPrepared_time] at hta
      rcases time0 with _ | tv
      · exact Option.noConfusion hta
      · simp only [Option.map_some'] at hta
        rw [← Option.some.inj hta, data_coerce] at hx
        exact precOkArr_forall (hptime tv rOps rfl rfl) x hx

def mC8 : CfMeta :=
  { nvars := 1, nouts := 1, nparams := 0, is_time_dependent := false,
    simd_size := 2, dt := 5, prec := 53 }

def kC8 : CfKernels RVal 1 1 0 2 :=
  { fscal := fun vi _ _ _ => { prec := 53, val := (vi 0).val },
    fbatch := fun vi _ _ _ j => { prec := 53, val := (vi 0 j).val } }

theorem C8_scratch_buffer_invariant_witness :
    bufsLens mC8 (initCfBufs mC8 (some rOps) { prec := 53, val := 0 })
      ∧ bufsPrecOk mC8.prec (initCfBufs mC8 (some rOps) { prec := 53, val := 0 })
      ∧ ∀ bufs inputs0 outputs0 pars0 time0 r,
          C8Inv mC8 bufs →
          (cfuncCall mC8 (some rOps) kC8 { prec := 53, val := 0 } bufs inputs0 outputs0 pars0
            time0).res = .ok r →
          C8Inv mC8 ((cfuncCall mC8 (some rOps) kC8 { prec := 53, val := 0 } bufs inputs0
            outputs0 pars0 time0).bufs) :=
  C8_scratch_buffer_invariant mC8 kC8 { prec := 53, val := 0 } rfl (fun _ _ _ _ => rfl)
    (fun _ _ _ _ _ => rfl)
